import Mathlib

/-!
# Storage collector of the Artifactory exporter

A shallow embedding of `collector/storage.go`: the two string parsers
(`removeCommas`, `bytesConverter`), the scalar emitters (`exportCount`,
`exportSize`, `exportFilestore`) and the per-repository pipeline
(`extractRepoSummary`, `exportRepo`), followed by the properties proved of them.

Go strings are modelled by `String`; the Go functions that return `(float64, error)`
return a pair of a `Float64` and an `Option GoError`, the error being `none` for `nil`.
-/

namespace Collector

/-! ## float64 -/

/-- A float64 value. Every finite float64 is an integer multiple of `2^-1074`, and
`fin k` stands for `k * 2^-1074`. Negative zero is identified with zero: the collector
never produces it. -/
inductive Float64
  | fin (k : Int)
  | posInf
  | negInf
  | nan
  deriving DecidableEq

namespace Float64

/-- The number of units `2^-1074` in 1.0. -/
def one : Nat := 2 ^ 1074

/-- The first magnitude that is no longer finite, `2^1024`, in units of `2^-1074`. -/
def overflow : Nat := 2 ^ 2098

/-- The quotient `a / b` rounded to the nearest integer, ties to the even one. -/
def roundHalfEven (a b : Nat) : Nat :=
  let f := a / b
  let r := a % b
  if 2 * r < b then f
  else if b < 2 * r then f + 1
  else if f % 2 = 0 then f
  else f + 1

/-- Rounding of the magnitude `p / q` units to a 53 bit significand, ties to even: while
the quotient has more than 53 bits the spacing of the candidates doubles. The first
argument bounds the number of doublings. -/
def roundFuel : Nat → Nat → Nat → Nat
  | 0, p, q => roundHalfEven p q
  | fuel + 1, p, q =>
    if p / q < 2 ^ 53 then roundHalfEven p q
    else 2 * roundFuel fuel p (2 * q)

/-- The multiple of `2^-1074` that IEEE 754 round-to-nearest-even selects for the
magnitude `p / q` units when the exponent is unbounded above. The spacing is one unit
throughout the subnormal range and the first normal binade. -/
def roundUnits (p q : Nat) : Nat := roundFuel (p / q) p q

/-- The float64 nearest to the non-negative magnitude `p / q` units, with the given sign;
a rounded magnitude of `2^1024` or more is an infinity. -/
def ofMagnitude (neg : Bool) (p q : Nat) : Float64 :=
  let k := roundUnits p q
  if k < overflow then fin (if neg then -(k : Int) else (k : Int))
  else if neg then negInf else posInf

/-- The conversion `float64(n)` of an integer. -/
def ofInt (n : Int) : Float64 :=
  ofMagnitude (decide (n < 0)) (n.natAbs * one) 1

/-- The float64 product `a * b`. -/
def mul : Float64 → Float64 → Float64
  | nan, _ => nan
  | _, nan => nan
  | fin a, fin b =>
    ofMagnitude (decide (a < 0) != decide (b < 0)) (a.natAbs * b.natAbs) one
  | fin a, posInf => if a = 0 then nan else if a < 0 then negInf else posInf
  | fin a, negInf => if a = 0 then nan else if a < 0 then posInf else negInf
  | posInf, fin b => if b = 0 then nan else if b < 0 then negInf else posInf
  | negInf, fin b => if b = 0 then nan else if b < 0 then posInf else negInf
  | posInf, posInf => posInf
  | negInf, negInf => posInf
  | posInf, negInf => negInf
  | negInf, posInf => negInf

/-- The float64 zero, the value Go returns next to a non-nil error. -/
def zero : Float64 := fin 0

end Float64

/-! ## Errors -/

/-- The errors the parsers return: the two `strconv.NumError`s of `ParseFloat`
(`ErrSyntax` and `ErrRange`, carrying the text that was parsed) and the error
built by `fmt.Errorf` (carrying its message). -/
inductive GoError
  | numSyntax (input : String)
  | numRange (input : String)
  | errorf (msg : String)
  deriving DecidableEq

/-! ## Library functions used by the parsers -/

/-- The character class `[^0-9.]` of the pattern in `removeCommas`. -/
def inClass (c : Char) : Bool := !(c.isDigit || c == '.')

/-- The function `ReplaceAllString` of the compiled pattern `[^0-9.]+`, for a
replacement `repl` without a dollar sign: every maximal run of characters of the class
is one match and is replaced by one copy of `repl`. The flag says whether the previous
character belonged to a match. -/
def replaceAllRuns (repl : List Char) : Bool → List Char → List Char
  | _, [] => []
  | inRun, c :: cs =>
    if inClass c then
      (if inRun then [] else repl) ++ replaceAllRuns repl true cs
    else c :: replaceAllRuns repl false cs

/-- The call `reg.ReplaceAllString(src, repl)` for `reg = [^0-9.]+`. -/
def replaceAllString (src repl : String) : String :=
  ⟨replaceAllRuns repl.data false src.data⟩

/-- The variables of the scanning loop of `strconv.readFloat`; the mantissa is kept in
full (Go keeps 19 digits and re-reads the text when they do not decide the rounding). -/
structure FloatScan where
  sawdot : Bool
  sawdigits : Bool
  nd : Nat
  dp : Int
  mantissa : Nat
  deriving DecidableEq

/-- The state in which `readFloat` enters its loop. -/
def FloatScan.init : FloatScan := ⟨false, false, 0, 0, 0⟩

/-- The scanning loop of `strconv.readFloat` on a text of digits and dots: it stops at
a second dot (and at any character that is neither digit nor dot; the branches for a
sign, an underscore, a hexadecimal prefix and an exponent all need such a character,
which the text handed over by `removeCommas` never has). Returns the final variables
and the unread rest. -/
def readFloatLoop : List Char → FloatScan → FloatScan × List Char
  | [], st => (st, [])
  | c :: cs, st =>
    if c = '.' then
      if st.sawdot then (st, c :: cs)
      else readFloatLoop cs { st with sawdot := true, dp := st.nd }
    else if c.isDigit then
      if c = '0' ∧ st.nd = 0 then
        readFloatLoop cs { st with sawdigits := true, dp := st.dp - 1 }
      else
        readFloatLoop cs { st with
          sawdigits := true, nd := st.nd + 1,
          mantissa := st.mantissa * 10 + (c.toNat - '0'.toNat) }
    else (st, c :: cs)

/-- The call `strconv.ParseFloat(s, 64)` on a text of digits and dots: a syntax error
when no digit was read or when the scan stopped before the end; otherwise the decimal
`mantissa * 10^(dp - nd)` correctly rounded, or `+Inf` with a range error when it
rounds to `2^1024` or more. -/
def parseFloat (s : String) : Float64 × Option GoError :=
  let (st, rest) := readFloatLoop s.data FloatScan.init
  if !st.sawdigits then (Float64.zero, some (.numSyntax s))
  else if !rest.isEmpty then (Float64.zero, some (.numSyntax s))
  else
    let dp : Int := if st.sawdot then st.dp else st.nd
    let k := Float64.roundUnits (st.mantissa * Float64.one) (10 ^ ((st.nd : Int) - dp).toNat)
    if k < Float64.overflow then (Float64.fin k, none)
    else (Float64.posInf, some (.numRange s))

/-- The function `strings.Contains` on character lists. -/
def containsChars : List Char → List Char → Bool
  | [], sub => sub.isEmpty
  | c :: cs, sub => sub.isPrefixOf (c :: cs) || containsChars cs sub

/-- The call `strings.Contains(s, substr)`. -/
def stringsContains (s substr : String) : Bool := containsChars s.data substr.data

/-! ## The parsers of `storage.go` -/

/-- The function `removeCommas`. The pattern is a constant that compiles, so the first
error branch is never taken. -/
def removeCommas (str : String) : Float64 × Option GoError :=
  match parseFloat (replaceAllString str "") with
  | (_, some err) => (Float64.zero, some err)
  | (convertedStr, none) => (convertedStr, none)

/-- The float64 constant 1024. -/
def f1024 : Float64 := Float64.ofInt 1024

/-- The function `bytesConverter`. -/
def bytesConverter (str : String) : Float64 × Option GoError :=
  match removeCommas str with
  | (_, some err) => (Float64.zero, some err)
  | (num, none) =>
    if stringsContains str "bytes" then (num, none)
    else if stringsContains str "KB" then (num.mul f1024, none)
    else if stringsContains str "MB" then ((num.mul f1024).mul f1024, none)
    else if stringsContains str "GB" then (((num.mul f1024).mul f1024).mul f1024, none)
    else if stringsContains str "TB" then
      ((((num.mul f1024).mul f1024).mul f1024).mul f1024, none)
    else (Float64.zero, some (.errorf ("Could not convert " ++ str ++ " to bytes")))

/-! ## Reference notions for the parsers -/

/-- The characters `removeCommas` keeps: the digits `0` to `9` and the point. -/
def keep (c : Char) : Bool := c.isDigit || c == '.'

/-- The digits of `w` read as a base-10 integer, continuing from `acc`. -/
def digitsFrom (acc : Nat) (w : List Char) : Nat :=
  w.foldl (fun n c => n * 10 + (c.toNat - '0'.toNat)) acc

/-- The base-10 number a text writes: a run of digits, optionally followed by a point
and a second run of digits, with at least one digit in all. The result `(n, f)` stands
for `n / 10^f`: all the digits read as an integer, and the number of digits after the
point. Any other text writes no number. -/
def decimalNumber (w : List Char) : Option (Nat × Nat) :=
  let a := w.takeWhile Char.isDigit
  match w.dropWhile Char.isDigit with
  | [] => if a.isEmpty then none else some (digitsFrom 0 a, 0)
  | c :: b =>
    if c = '.' ∧ b.all Char.isDigit ∧ (!a.isEmpty || !b.isEmpty) then
      some (digitsFrom 0 (a ++ b), b.length)
    else none

/-- The five unit names of `bytesConverter`, in the order in which it tests them. -/
def unitNames : List String := ["bytes", "KB", "MB", "GB", "TB"]

/-- The index in `unitNames` of the first unit name that occurs in `s` as a substring. -/
def firstUnit (s : String) : Option Nat :=
  unitNames.findIdx? (fun u => decide (u.data <:+: s.data))

/-- The magnitudes, in units of `2^-1074`, that have a significand of at most 53 bits:
the finite float64 values are those below `Float64.overflow`. -/
def Float64.IsFloat (k : Nat) : Prop := ∃ m i : Nat, m < 2 ^ 53 ∧ k = m * 2 ^ i

/-- The float64 of magnitude `u * 1024^k` units when that product has a significand of
at most 53 bits: the product itself, or `+Inf` when it is `2^1024` or more. -/
def Float64.scale (u k : Nat) : Float64 :=
  if u * 1024 ^ k < Float64.overflow then Float64.fin ((u * 1024 ^ k : Nat) : Int)
  else Float64.posInf

/-- A text of 310 digits, the number `10^309`. -/
def tenPow309 : String := ⟨'1' :: List.replicate 309 '0'⟩

/-! ## Library functions of the emitters -/

/-- The function `strings.ToLower`: every character is replaced by its lower case
according to `unicode.ToLower`, whose table is the parameter `lower`. -/
def stringsToLower (lower : Char → Char) (s : String) : String := ⟨s.data.map lower⟩

/-- A metric as built by `prometheus.MustNewConstMetric(desc, prometheus.GaugeValue,
value, labelValues...)`: the descriptor, the value and the label values in the order
given. Descriptors belong to the client library and are kept abstract. -/
structure Metric (Desc : Type) where
  desc : Desc
  value : Float64
  labelValues : List String

/-- The call `prometheus.MustNewConstMetric(desc, prometheus.GaugeValue, value, ...)`. -/
def mustNewConstMetric {Desc : Type} (desc : Desc) (value : Float64)
    (labelValues : List String) : Metric Desc :=
  ⟨desc, value, labelValues⟩

/-- The part of the `Exporter` that `storage.go` changes: the counter
`jsonParseFailures`, whose `Inc` adds one. -/
structure Exporter where
  jsonParseFailures : Nat
  deriving DecidableEq

/-- The call `e.jsonParseFailures.Inc()`. -/
def Exporter.inc (e : Exporter) : Exporter :=
  { e with jsonParseFailures := e.jsonParseFailures + 1 }

/-! ## The decoded response -/

/-- The anonymous struct of the fields `BinariesSummary`. -/
structure BinariesSummary where
  BinariesCount : String
  BinariesSize : String
  ArtifactsSize : String
  Optimization : String
  ItemsCount : String
  ArtifactsCount : String

/-- The anonymous struct of the fields `FileStoreSummary`. -/
structure FileStoreSummary where
  StorageType : String
  StorageDirectory : String
  TotalSpace : String
  UsedSpace : String
  FreeSpace : String

/-- The element type of the slices `RepositoriesSummaryList`. -/
structure RepositorySummary where
  RepoKey : String
  RepoType : String
  FoldersCount : Int
  FilesCount : Int
  UsedSpace : String
  ItemsCount : Int
  PackageType : String
  Percentage : String

/-- The anonymous struct of the field `StorageSummary`. -/
structure StorageSummary where
  BinariesSummary : BinariesSummary
  FileStoreSummary : FileStoreSummary
  RepositoriesSummaryList : List RepositorySummary

/-- The struct `storageInfo`: the nested summary and the top-level copies of its parts. -/
structure storageInfo where
  StorageSummary : StorageSummary
  FileStoreSummary : FileStoreSummary
  RepositoriesSummaryList : List RepositorySummary
  BinariesSummary : BinariesSummary

/-! ## The scalar emitters -/

/-- The method `exportCount`; the channel is the list of metrics sent so far. -/
def exportCount {Desc : Type} (e : Exporter) (_metricName : String) (metric : Desc)
    (count : String) (ch : List (Metric Desc)) : Exporter × List (Metric Desc) :=
  if count = "" then (e.inc, ch)
  else
    let value := (removeCommas count).1
    (e, ch ++ [mustNewConstMetric metric value []])

/-- The method `exportSize`. -/
def exportSize {Desc : Type} (e : Exporter) (_metricName : String) (metric : Desc)
    (size : String) (ch : List (Metric Desc)) : Exporter × List (Metric Desc) :=
  if size = "" then (e.inc, ch)
  else
    let value := (bytesConverter size).1
    (e, ch ++ [mustNewConstMetric metric value []])

/-- The method `exportFilestore`. -/
def exportFilestore {Desc : Type} (e : Exporter) (_metricName : String) (metric : Desc)
    (size : String) (fileStoreType : String) (fileStoreDir : String)
    (ch : List (Metric Desc)) : Exporter × List (Metric Desc) :=
  if size = "" then (e.inc, ch)
  else
    let value := (bytesConverter size).1
    (e, ch ++ [mustNewConstMetric metric value [fileStoreType, fileStoreDir]])

/-! ## The per-repository pipeline -/

/-- The struct `repoSummary`; `Type_` is its field `Type`. -/
structure repoSummary where
  Name : String
  Type_ : String
  FoldersCount : Float64
  FilesCount : Float64
  UsedSpace : Float64
  ItemsCount : Float64
  PackageType : String
  Percentage : Float64
  deriving DecidableEq

/-- The zero value `repoSummary{}`. -/
def repoSummary.empty : repoSummary :=
  ⟨"", "", Float64.zero, Float64.zero, Float64.zero, Float64.zero, "", Float64.zero⟩

/-- The `for` loop of `extractRepoSummary` over the remaining entries, with the
variable `rs` that the iterations share and the list built so far. The result is
`none` when the loop returned from the method, and the list otherwise. -/
def extractRepoSummaryLoop (lower : Char → Char) (e : Exporter) :
    List RepositorySummary → repoSummary → List repoSummary →
      Exporter × Option (List repoSummary)
  | [], _, repoSummaryList => (e, some repoSummaryList)
  | repo :: rest, rs, repoSummaryList =>
    if repo.RepoKey = "TOTAL" then extractRepoSummaryLoop lower e rest rs repoSummaryList
    else
      let rs := { rs with Name := repo.RepoKey }
      let rs := { rs with Type_ := stringsToLower lower repo.RepoType }
      let rs := { rs with FoldersCount := Float64.ofInt repo.FoldersCount }
      let rs := { rs with FilesCount := Float64.ofInt repo.FilesCount }
      let rs := { rs with ItemsCount := Float64.ofInt repo.ItemsCount }
      let rs := { rs with PackageType := stringsToLower lower repo.PackageType }
      match bytesConverter repo.UsedSpace with
      | (_, some _) => (e.inc, none)
      | (usedSpace, none) =>
        let rs := { rs with UsedSpace := usedSpace }
        match removeCommas repo.Percentage with
        | (_, some _) => (e.inc, none)
        | (percentage, none) =>
          let rs := { rs with Percentage := percentage }
          extractRepoSummaryLoop lower e rest rs (repoSummaryList ++ [rs])

/-- The `switch` of `exportRepo` for one entry of the table `storageMetrics`. -/
def exportRepoCase {Desc : Type} (repoSummary : repoSummary) (metricName : String)
    (metric : Desc) (ch : List (Metric Desc)) : List (Metric Desc) :=
  if metricName = "repoUsed" then
    ch ++ [mustNewConstMetric metric repoSummary.UsedSpace
      [repoSummary.Name, repoSummary.Type_, repoSummary.PackageType]]
  else if metricName = "repoFolders" then
    ch ++ [mustNewConstMetric metric repoSummary.FoldersCount
      [repoSummary.Name, repoSummary.Type_, repoSummary.PackageType]]
  else if metricName = "repoItems" then
    ch ++ [mustNewConstMetric metric repoSummary.ItemsCount
      [repoSummary.Name, repoSummary.Type_, repoSummary.PackageType]]
  else if metricName = "repoFiles" then
    ch ++ [mustNewConstMetric metric repoSummary.FilesCount
      [repoSummary.Name, repoSummary.Type_, repoSummary.PackageType]]
  else if metricName = "repoPercentage" then
    ch ++ [mustNewConstMetric metric repoSummary.Percentage
      [repoSummary.Name, repoSummary.Type_, repoSummary.PackageType]]
  else ch

/-- The inner loop of `exportRepo`: one pass over the entries of `storageMetrics` in
the order in which the `range` visits them. -/
def exportRepoRange {Desc : Type} (repoSummary : repoSummary) :
    List (String × Desc) → List (Metric Desc) → List (Metric Desc)
  | [], ch => ch
  | (metricName, metric) :: rest, ch =>
    exportRepoRange repoSummary rest (exportRepoCase repoSummary metricName metric ch)

/-- The outer loop of `exportRepo` from the `i`-th summary on. Go leaves the order of
a `range` over a map unspecified, and it may differ from one pass to the next:
`storageMetrics i` lists the entries of the table in the order of the `i`-th pass. -/
def exportRepoFrom {Desc : Type} (storageMetrics : Nat → List (String × Desc)) :
    Nat → List repoSummary → List (Metric Desc) → List (Metric Desc)
  | _, [], ch => ch
  | i, repoSummary :: rest, ch =>
    exportRepoFrom storageMetrics (i + 1) rest
      (exportRepoRange repoSummary (storageMetrics i) ch)

/-- The method `exportRepo`. -/
def exportRepo {Desc : Type} (storageMetrics : Nat → List (String × Desc)) (e : Exporter)
    (repoSummaries : List repoSummary) (ch : List (Metric Desc)) :
    Exporter × List (Metric Desc) :=
  (e, exportRepoFrom storageMetrics 0 repoSummaries ch)

/-- The method `extractRepoSummary`. -/
def extractRepoSummary {Desc : Type} (lower : Char → Char)
    (storageMetrics : Nat → List (String × Desc)) (e : Exporter)
    (storageInfo : storageInfo) (ch : List (Metric Desc)) :
    Exporter × List (Metric Desc) :=
  match extractRepoSummaryLoop lower e storageInfo.StorageSummary.RepositoriesSummaryList
      repoSummary.empty [] with
  | (e, none) => (e, ch)
  | (e, some repoSummaryList) => exportRepo storageMetrics e repoSummaryList ch

/-! ## Reference notions for the per-repository pipeline -/

/-- The record the loop of `extractRepoSummary` is to build from one entry alone: the
key unchanged, the two types in lower case, the three counts converted to float64, and
the values of the two parsers. -/
def summaryOf (lower : Char → Char) (repo : RepositorySummary) : repoSummary where
  Name := repo.RepoKey
  Type_ := stringsToLower lower repo.RepoType
  FoldersCount := Float64.ofInt repo.FoldersCount
  FilesCount := Float64.ofInt repo.FilesCount
  UsedSpace := (bytesConverter repo.UsedSpace).1
  ItemsCount := Float64.ofInt repo.ItemsCount
  PackageType := stringsToLower lower repo.PackageType
  Percentage := (removeCommas repo.Percentage).1

/-- An entry is well formed when `bytesConverter` accepts its used space and
`removeCommas` accepts its percentage. -/
def wellFormed (repo : RepositorySummary) : Bool :=
  (bytesConverter repo.UsedSpace).2.isNone && (removeCommas repo.Percentage).2.isNone

/-- The entries of a list other than the rows with the key `TOTAL`. -/
def nonTotal (l : List RepositorySummary) : List RepositorySummary :=
  l.filter (fun repo => repo.RepoKey != "TOTAL")

/-- The descriptors of the five per-repository kinds. -/
structure RepoDescs (Desc : Type) where
  repoUsed : Desc
  repoFolders : Desc
  repoItems : Desc
  repoFiles : Desc
  repoPercentage : Desc

/-- The five kinds with their descriptors, as entries of the table `storageMetrics`. -/
def RepoDescs.entries {Desc : Type} (d : RepoDescs Desc) : List (String × Desc) :=
  [("repoUsed", d.repoUsed), ("repoFolders", d.repoFolders), ("repoItems", d.repoItems),
   ("repoFiles", d.repoFiles), ("repoPercentage", d.repoPercentage)]

/-- A list of entries is one pass over a table that contains the five kinds with the
descriptors `d`: no key occurs twice, as in any Go map, and the five entries occur. -/
def IsRangeOf {Desc : Type} (d : RepoDescs Desc) (order : List (String × Desc)) : Prop :=
  (order.map Prod.fst).Nodup ∧ ∀ kv ∈ d.entries, kv ∈ order

/-- The five observations of one summary: one per kind, each with the label values
name, type and package type, and the value of the matching field. -/
def repoObservations {Desc : Type} (d : RepoDescs Desc) (r : repoSummary) :
    List (Metric Desc) :=
  [⟨d.repoUsed, r.UsedSpace, [r.Name, r.Type_, r.PackageType]⟩,
   ⟨d.repoFolders, r.FoldersCount, [r.Name, r.Type_, r.PackageType]⟩,
   ⟨d.repoItems, r.ItemsCount, [r.Name, r.Type_, r.PackageType]⟩,
   ⟨d.repoFiles, r.FilesCount, [r.Name, r.Type_, r.PackageType]⟩,
   ⟨d.repoPercentage, r.Percentage, [r.Name, r.Type_, r.PackageType]⟩]

/-- The metrics the `switch` of `exportRepo` sends for one entry of the table. -/
def caseMetrics {Desc : Type} (r : repoSummary) (kv : String × Desc) : List (Metric Desc) :=
  exportRepoCase r kv.1 kv.2 []

/-- A table with the five per-repository kinds and two other kinds, the descriptors
being their names. -/
def sampleTable : List (String × String) :=
  [("artifacts", "artifacts"), ("repoUsed", "repoUsed"), ("repoFolders", "repoFolders"),
   ("repoItems", "repoItems"), ("fileStore", "fileStore"), ("repoFiles", "repoFiles"),
   ("repoPercentage", "repoPercentage")]

/-- The descriptors of the five kinds in `sampleTable`. -/
def sampleDescs : RepoDescs String :=
  ⟨"repoUsed", "repoFolders", "repoItems", "repoFiles", "repoPercentage"⟩

/-- A response in which only the nested list of repositories is filled. -/
def responseOf (l : List RepositorySummary) : storageInfo :=
  ⟨⟨⟨"", "", "", "", "", ""⟩, ⟨"", "", "", "", ""⟩, l⟩, ⟨"", "", "", "", ""⟩, [],
    ⟨"", "", "", "", "", ""⟩⟩

/-- The well-formed row of the repository `repo-a`. -/
def rowRepoA : RepositorySummary := ⟨"repo-a", "LOCAL", 3, 7, "2 GB", 10, "Maven", "10.5"⟩

/-- A `TOTAL` row as the server sends it: without package type and percentage. -/
def rowTotal : RepositorySummary := ⟨"TOTAL", "NA", 3, 7, "2 GB", 10, "", ""⟩

/-- A row of an ordinary repository whose used space has no unit. -/
def rowBad : RepositorySummary := ⟨"repo-b", "LOCAL", 1, 1, "12", 2, "Generic", "1.5"⟩

/-! ## Fetching the response -/

/-- The zero value of `storageInfo`, the content of `var storageInfo storageInfo`. -/
def storageInfo.zero : storageInfo :=
  ⟨⟨⟨"", "", "", "", "", ""⟩, ⟨"", "", "", "", ""⟩, []⟩, ⟨"", "", "", "", ""⟩, [],
    ⟨"", "", "", "", "", ""⟩⟩

/-- The method `fetchStorageInfo`. The helper `fetchHTTP` and the decoder
`json.Unmarshal` are parameters: `fetchHTTP path` is the body and the error the helper
returns for the resource `path` (its other arguments are settings of the exporter), and
`jsonUnmarshal resp v` is the content of `v` after the call together with the error
returned. -/
def fetchStorageInfo {Err : Type} (fetchHTTP : String → List UInt8 × Option Err)
    (jsonUnmarshal : List UInt8 → storageInfo → storageInfo × Option Err) (e : Exporter) :
    Exporter × storageInfo × Option Err :=
  let storageInfo := storageInfo.zero
  match fetchHTTP "storageinfo" with
  | (_, some err) => (e, storageInfo, some err)
  | (resp, none) =>
    match jsonUnmarshal resp storageInfo with
    | (storageInfo, some err) => (e.inc, storageInfo, some err)
    | (storageInfo, none) => (e, storageInfo, none)

/-! ## Reference notions for sequences of calls and for signs -/

/-- One call of a method of `storage.go`, with its arguments other than the receiver
and the channel. -/
inductive Call (Desc Err : Type)
  | fetchStorageInfo (fetchHTTP : String → List UInt8 × Option Err)
      (jsonUnmarshal : List UInt8 → storageInfo → storageInfo × Option Err)
  | exportCount (metricName : String) (metric : Desc) (count : String)
  | exportSize (metricName : String) (metric : Desc) (size : String)
  | exportFilestore (metricName : String) (metric : Desc) (size : String)
      (fileStoreType : String) (fileStoreDir : String)
  | extractRepoSummary (info : storageInfo)
  | exportRepo (repoSummaries : List repoSummary)

/-- The exporter and the channel after one call. -/
def Call.run {Desc Err : Type} (lower : Char → Char)
    (storageMetrics : Nat → List (String × Desc)) :
    Call Desc Err → Exporter × List (Metric Desc) → Exporter × List (Metric Desc)
  | .fetchStorageInfo fetchHTTP jsonUnmarshal, (e, ch) =>
    ((Collector.fetchStorageInfo fetchHTTP jsonUnmarshal e).1, ch)
  | .exportCount metricName metric count, (e, ch) =>
    Collector.exportCount e metricName metric count ch
  | .exportSize metricName metric size, (e, ch) =>
    Collector.exportSize e metricName metric size ch
  | .exportFilestore metricName metric size fileStoreType fileStoreDir, (e, ch) =>
    Collector.exportFilestore e metricName metric size fileStoreType fileStoreDir ch
  | .extractRepoSummary info, (e, ch) =>
    Collector.extractRepoSummary lower storageMetrics e info ch
  | .exportRepo repoSummaries, (e, ch) =>
    Collector.exportRepo storageMetrics e repoSummaries ch

/-- The exporter and the channel after a sequence of calls, made in order. -/
def runCalls {Desc Err : Type} (lower : Char → Char)
    (storageMetrics : Nat → List (String × Desc)) (calls : List (Call Desc Err))
    (st : Exporter × List (Metric Desc)) : Exporter × List (Metric Desc) :=
  calls.foldl (fun st call => call.run lower storageMetrics st) st

/-- A float64 is not negative: a finite value of at least zero, or `+Inf`. -/
def Float64.nonneg : Float64 → Bool
  | .fin k => decide (0 ≤ k)
  | .posInf => true
  | .negInf => false
  | .nan => false

/-- The text `t` is obtained from `w` by inserting and deleting, at any positions and in
any number, characters that are neither digits nor points. -/
inductive Respelled (w : List Char) : List Char → Prop
  | same : Respelled w w
  | insert (a b : List Char) (c : Char) :
      keep c = false → Respelled w (a ++ b) → Respelled w (a ++ c :: b)
  | delete (a b : List Char) (c : Char) :
      keep c = false → Respelled w (a ++ c :: b) → Respelled w (a ++ b)

/-- A response whose top-level copies are filled and differ from the nested summary. -/
def responseWithTop (l : List RepositorySummary) : storageInfo :=
  ⟨⟨⟨"7", "1 GB", "2 GB", "50%", "9", "8"⟩, ⟨"file-system", "/var/opt", "3 TB", "1 TB",
    "2 TB"⟩, l⟩, ⟨"s3", "bucket", "", "12", "x"⟩, [⟨"repo-z", "REMOTE", 0, 0, "", 0, "", ""⟩],
    ⟨"", "n/a", "", "", "", ""⟩⟩

/-! # Properties -/

namespace Float64

theorem roundHalfEven_mul_right (a b c : Nat) (hc : 0 < c) :
    roundHalfEven (a * c) (b * c) = roundHalfEven a b := by
  unfold roundHalfEven
  simp only [Nat.mul_div_mul_right a b hc, Nat.mul_mod_mul_right]
  have h1 : (2 * (a % b * c) < b * c) ↔ (2 * (a % b) < b) := by
    rw [← Nat.mul_assoc]
    exact Nat.mul_lt_mul_right hc
  have h2 : (b * c < 2 * (a % b * c)) ↔ (b < 2 * (a % b)) := by
    rw [← Nat.mul_assoc]
    exact Nat.mul_lt_mul_right hc
  simp only [h1, h2]

theorem roundHalfEven_one (a : Nat) : roundHalfEven a 1 = a := by
  simp [roundHalfEven, Nat.mod_one]

theorem roundHalfEven_le (a b : Nat) : roundHalfEven a b ≤ a / b + 1 := by
  unfold roundHalfEven
  simp only
  split_ifs <;> omega

theorem roundFuel_mul_right (fuel p q c : Nat) (hc : 0 < c) :
    roundFuel fuel (p * c) (q * c) = roundFuel fuel p q := by
  induction fuel generalizing q with
  | zero => simp [roundFuel, roundHalfEven_mul_right _ _ _ hc]
  | succ n ih =>
    simp only [roundFuel, Nat.mul_div_mul_right p q hc, roundHalfEven_mul_right _ _ _ hc]
    rw [← Nat.mul_assoc, ih]

theorem roundUnits_mul_right (p q c : Nat) (hc : 0 < c) :
    roundUnits (p * c) (q * c) = roundUnits p q := by
  simp [roundUnits, Nat.mul_div_mul_right p q hc, roundFuel_mul_right _ _ _ _ hc]

theorem roundFuel_exact (fuel m i q : Nat) (hm : m < 2 ^ 53) (hq : 0 < q) :
    roundFuel fuel (m * 2 ^ i * q) q = m * 2 ^ i := by
  have hrhe : ∀ q : Nat, 0 < q → ∀ x : Nat, roundHalfEven (x * q) q = x := fun q hq x => by
    have := roundHalfEven_mul_right x 1 q hq
    rw [Nat.one_mul] at this
    rw [this, roundHalfEven_one]
  induction fuel generalizing i q with
  | zero => simp [roundFuel, hrhe q hq]
  | succ n ih =>
    simp only [roundFuel, Nat.mul_div_cancel _ hq, hrhe q hq]
    split_ifs with h
    · rfl
    · cases i with
      | zero => simp at h; omega
      | succ j =>
        have e : m * 2 ^ (j + 1) * q = m * 2 ^ j * (2 * q) := by ring
        rw [e, ih j (2 * q) (by omega)]
        ring

theorem roundUnits_exact (k : Nat) (hk : IsFloat k) : roundUnits k 1 = k := by
  obtain ⟨m, i, hm, rfl⟩ := hk
  have := roundFuel_exact (m * 2 ^ i / 1) m i 1 hm Nat.one_pos
  simpa [roundUnits] using this

theorem roundFuel_isFloat (fuel p q : Nat) (hq : 0 < q) (hf : p / q ≤ fuel) :
    ∃ m i : Nat, m ≤ 2 ^ 53 ∧ roundFuel fuel p q = m * 2 ^ i := by
  induction fuel generalizing q with
  | zero =>
    refine ⟨roundHalfEven p q, 0, ?_, by simp [roundFuel]⟩
    have := roundHalfEven_le p q
    omega
  | succ n ih =>
    simp only [roundFuel]
    split_ifs with h
    · refine ⟨roundHalfEven p q, 0, ?_, by simp⟩
      have := roundHalfEven_le p q
      omega
    · have h2 : p / (2 * q) ≤ n := by
        rw [Nat.mul_comm, ← Nat.div_div_eq_div_mul]
        omega
      obtain ⟨m, i, hm, e⟩ := ih (2 * q) (by omega) h2
      exact ⟨m, i + 1, hm, by rw [e]; ring⟩

theorem roundUnits_isFloat (p q : Nat) (hq : 0 < q) : IsFloat (roundUnits p q) := by
  obtain ⟨m, i, hm, e⟩ := roundFuel_isFloat (p / q) p q hq (Nat.le_refl _)
  rcases Nat.lt_or_ge m (2 ^ 53) with h | h
  · exact ⟨m, i, h, e⟩
  · have hm2 : m = 2 ^ 53 := Nat.le_antisymm hm h
    refine ⟨2 ^ 52, i + 1, by norm_num, ?_⟩
    rw [roundUnits, e, hm2]
    ring

theorem IsFloat.mul_pow (k j : Nat) (hk : IsFloat k) : IsFloat (k * 1024 ^ j) := by
  obtain ⟨m, i, hm, rfl⟩ := hk
  refine ⟨m, i + 10 * j, hm, ?_⟩
  have : (1024 : Nat) = 2 ^ 10 := by norm_num
  rw [this, ← pow_mul, pow_add]
  ring

theorem roundHalfEven_nearest (p q k : Nat) (hq : 0 < q) :
    |(p : Int) - (roundHalfEven p q : Nat) * q| ≤ |(p : Int) - k * q| := by
  have hp : q * (p / q) + p % q = p := Nat.div_add_mod p q
  have hr : p % q < q := Nat.mod_lt p hq
  have key : ∀ R : Nat, (R = p / q ∧ 2 * (p % q) ≤ q) ∨ (R = p / q + 1 ∧ q ≤ 2 * (p % q)) →
      |(p : Int) - (R : Nat) * q| ≤ |(p : Int) - k * q| := by
    intro R hR
    rcases Nat.lt_or_ge k (p / q + 1) with hk | hk
    · have h1 : k * q ≤ p / q * q := Nat.mul_le_mul_right q (Nat.lt_succ_iff.1 hk)
      have h2 : (p / q + 1) * q = p / q * q + q := by ring
      rw [Nat.mul_comm] at hp
      rcases hR with ⟨rfl, hR⟩ | ⟨rfl, hR⟩
      · rw [abs_le]
        have : (0 : Int) ≤ (p : Int) - k * q := by
          have : k * q ≤ p := by omega
          have : ((k * q : Nat) : Int) ≤ p := by exact_mod_cast this
          push_cast at this
          omega
        rw [abs_of_nonneg this]
        have e1 : ((p / q * q : Nat) : Int) = ((p / q : Nat) : Int) * q := by push_cast; ring
        have e2 : ((k * q : Nat) : Int) = (k : Int) * q := by push_cast; ring
        rw [← e1, ← e2]
        omega
      · rw [abs_le]
        have : (0 : Int) ≤ (p : Int) - k * q := by
          have : k * q ≤ p := by omega
          have : ((k * q : Nat) : Int) ≤ p := by exact_mod_cast this
          push_cast at this
          omega
        rw [abs_of_nonneg this]
        have e1 : (((p / q + 1) * q : Nat) : Int) = ((p / q + 1 : Nat) : Int) * q := by
          push_cast; ring
        have e2 : ((k * q : Nat) : Int) = (k : Int) * q := by push_cast; ring
        rw [← e1, ← e2]
        omega
    · have h1 : (p / q + 1) * q ≤ k * q := Nat.mul_le_mul_right q hk
      have h2 : (p / q + 1) * q = p / q * q + q := by ring
      rw [Nat.mul_comm] at hp
      have hneg : (p : Int) - k * q ≤ 0 := by
        have : p ≤ k * q := by omega
        have : (p : Int) ≤ ((k * q : Nat) : Int) := by exact_mod_cast this
        push_cast at this
        omega
      rw [abs_of_nonpos hneg, abs_le]
      have e2 : ((k * q : Nat) : Int) = (k : Int) * q := by push_cast; ring
      rcases hR with ⟨rfl, hR⟩ | ⟨rfl, hR⟩
      · have e1 : ((p / q * q : Nat) : Int) = ((p / q : Nat) : Int) * q := by push_cast; ring
        rw [← e1, ← e2]
        omega
      · have e1 : (((p / q + 1) * q : Nat) : Int) = ((p / q + 1 : Nat) : Int) * q := by
          push_cast; ring
        rw [← e1, ← e2]
        omega
  apply key
  unfold roundHalfEven
  simp only
  split_ifs <;> omega

theorem IsFloat.half (k : Nat) (hk : IsFloat (2 * k)) : IsFloat k := by
  obtain ⟨m, i, hm, e⟩ := hk
  cases i with
  | zero =>
    refine ⟨k, 0, ?_, by simp⟩
    simp at e
    omega
  | succ j =>
    refine ⟨m, j, hm, ?_⟩
    rw [pow_succ] at e
    have : 2 * k = 2 * (m * 2 ^ j) := by rw [e]; ring
    omega

theorem roundFuel_nearest (fuel p q k : Nat) (hq : 0 < q) (hk : IsFloat k) :
    |(p : Int) - (roundFuel fuel p q : Nat) * q| ≤ |(p : Int) - k * q| := by
  induction fuel generalizing q k with
  | zero => exact roundHalfEven_nearest p q k hq
  | succ n ih =>
    rw [roundFuel]
    split_ifs with h
    · exact roundHalfEven_nearest p q k hq
    · have e : ((2 * roundFuel n p (2 * q) : Nat) : Int) * q =
          ((roundFuel n p (2 * q) : Nat) : Int) * ((2 * q : Nat) : Int) := by
        push_cast; ring
      rw [e]
      rcases Nat.even_or_odd' k with ⟨c, rfl | rfl⟩
      · have := ih (2 * q) c (by omega) (IsFloat.half c hk)
        have e2 : ((2 * c : Nat) : Int) * q = (c : Int) * ((2 * q : Nat) : Int) := by
          push_cast; ring
        rw [e2]
        exact this
      · -- an odd magnitude has no factor two left: it is below `2^53`
        have hlt : 2 * c + 1 < 2 ^ 53 := by
          obtain ⟨m, i, hm, e3⟩ := hk
          cases i with
          | zero => simp at e3; omega
          | succ j =>
            exfalso
            rw [pow_succ] at e3
            have : 2 * c + 1 = 2 * (m * 2 ^ j) := by rw [e3]; ring
            omega
        have h52 := ih (2 * q) (2 ^ 52) (by omega) ⟨1, 52, by norm_num, by norm_num⟩
        refine le_trans h52 ?_
        have hge : 2 ^ 53 * q ≤ p := by
          have := Nat.div_mul_le_self p q
          have h' : 2 ^ 53 ≤ p / q := Nat.le_of_not_lt h
          exact le_trans (Nat.mul_le_mul_right q h') this
        have h1 : (2 * c + 1) * q ≤ 2 ^ 53 * q := Nat.mul_le_mul_right q (Nat.le_of_lt hlt)
        have e3 : ((2 ^ 52 : Nat) : Int) * ((2 * q : Nat) : Int) = ((2 ^ 53 * q : Nat) : Int) := by
          push_cast; ring
        have e4 : ((2 * c + 1 : Nat) : Int) * (q : Int) = (((2 * c + 1) * q : Nat) : Int) := by
          push_cast; ring
        rw [e3, e4]
        rw [abs_of_nonneg (by omega), abs_of_nonneg (by omega)]
        omega

/-- The value `roundUnits p q` is a nearest one: no magnitude with a significand of at
most 53 bits is closer to `p / q`. -/
theorem roundUnits_nearest (p q k : Nat) (hq : 0 < q) (hk : IsFloat k) :
    |(p : Int) - (roundUnits p q : Nat) * q| ≤ |(p : Int) - k * q| :=
  roundFuel_nearest _ p q k hq hk

end Float64

/-! ### The library functions -/

theorem replaceAllRuns_nil (b : Bool) (w : List Char) :
    replaceAllRuns [] b w = w.filter keep := by
  induction w generalizing b with
  | nil => rfl
  | cons c cs ih =>
    have hc : inClass c = !keep c := rfl
    cases h : keep c <;> simp [replaceAllRuns, hc, h, ih]

theorem replaceAllString_data (s : String) :
    (replaceAllString s "").data = s.data.filter keep := by
  simp [replaceAllString, replaceAllRuns_nil]

theorem containsChars_iff (s sub : List Char) : containsChars s sub = true ↔ sub <:+: s := by
  induction s with
  | nil => simp [containsChars, List.isEmpty_iff]
  | cons c cs ih =>
    simp only [containsChars, Bool.or_eq_true, ih, List.infix_cons_iff]
    rw [ List.isPrefixOf_iff_prefix]

theorem stringsContains_iff (s sub : String) :
    stringsContains s sub = true ↔ sub.data <:+: s.data :=
  containsChars_iff _ _

theorem isDigit_ne_dot (c : Char) (h : c.isDigit = true) : c ≠ '.' := by
  rintro rfl
  exact absurd h (by decide)

/-! ### The scanning loop -/

theorem readFloatLoop_dot (cs : List Char) (st : FloatScan) :
    readFloatLoop ('.' :: cs) st =
      if st.sawdot then (st, '.' :: cs)
      else readFloatLoop cs { st with sawdot := true, dp := st.nd } := by
  simp [readFloatLoop]

theorem readFloatLoop_zero (c : Char) (cs : List Char) (st : FloatScan)
    (hc : c.isDigit = true) (hz : c = '0' ∧ st.nd = 0) :
    readFloatLoop (c :: cs) st =
      readFloatLoop cs { st with sawdigits := true, dp := st.dp - 1 } := by
  have hne := isDigit_ne_dot c hc
  rw [readFloatLoop, if_neg hne, if_pos hc, if_pos hz]

theorem readFloatLoop_digit (c : Char) (cs : List Char) (st : FloatScan)
    (hc : c.isDigit = true) (hz : ¬(c = '0' ∧ st.nd = 0)) :
    readFloatLoop (c :: cs) st =
      readFloatLoop cs { st with
        sawdigits := true, nd := st.nd + 1,
        mantissa := st.mantissa * 10 + (c.toNat - '0'.toNat) } := by
  have hne := isDigit_ne_dot c hc
  rw [readFloatLoop, if_neg hne, if_pos hc, if_neg hz]

theorem readFloatLoop_other (c : Char) (cs : List Char) (st : FloatScan)
    (hc : c.isDigit = false) (hne : c ≠ '.') :
    readFloatLoop (c :: cs) st = (st, c :: cs) := by
  rw [readFloatLoop, if_neg hne, if_neg (by simp [hc])]

theorem readFloatLoop_digits (a : List Char) (ha : ∀ c ∈ a, c.isDigit = true)
    (w : List Char) (st : FloatScan) (hinv : st.nd = 0 → st.mantissa = 0) :
    ∃ st', readFloatLoop (a ++ w) st = readFloatLoop w st' ∧
      st'.sawdot = st.sawdot ∧ st'.sawdigits = (st.sawdigits || !a.isEmpty) ∧
      st'.mantissa = digitsFrom st.mantissa a ∧
      (st'.nd : Int) - st'.dp = (st.nd : Int) - st.dp + a.length ∧
      (st'.nd = 0 → st'.mantissa = 0) := by
  induction a generalizing st with
  | nil => exact ⟨st, rfl, rfl, by simp, rfl, by simp, hinv⟩
  | cons c cs ih =>
    have hc := ha c (List.mem_cons_self _ _)
    have hcs : ∀ d ∈ cs, d.isDigit = true := fun d hd => ha d (List.mem_cons_of_mem _ hd)
    by_cases hz : c = '0' ∧ st.nd = 0
    · obtain ⟨st', h1, h2, h3, h4, h5, h6⟩ :=
        ih hcs { st with sawdigits := true, dp := st.dp - 1 } (by simpa using hinv)
      refine ⟨st', ?_, ?_, ?_, ?_, ?_, h6⟩
      · rw [List.cons_append, readFloatLoop_zero c _ st hc hz, h1]
      · simpa using h2
      · simpa using h3
      · rw [h4]
        have hm := hinv hz.2
        simp [digitsFrom, hm, hz.1]
      · rw [h5]
        simp only [List.length_cons]
        push_cast
        ring
    · obtain ⟨st', h1, h2, h3, h4, h5, h6⟩ :=
        ih hcs { st with sawdigits := true, nd := st.nd + 1,
                         mantissa := st.mantissa * 10 + (c.toNat - '0'.toNat) } (by simp)
      refine ⟨st', ?_, ?_, ?_, ?_, ?_, h6⟩
      · rw [List.cons_append, readFloatLoop_digit c _ st hc hz, h1]
      · simpa using h2
      · simpa using h3
      · rw [h4]
        simp [digitsFrom]
      · rw [h5]
        simp only [List.length_cons]
        push_cast
        ring

theorem readFloatLoop_no_digit (w : List Char) (hw : ∀ c ∈ w, c.isDigit = false)
    (st : FloatScan) : (readFloatLoop w st).1.sawdigits = st.sawdigits := by
  induction w generalizing st with
  | nil => rfl
  | cons c cs ih =>
    have hc := hw c (List.mem_cons_self _ _)
    have hcs : ∀ d ∈ cs, d.isDigit = false := fun d hd => hw d (List.mem_cons_of_mem _ hd)
    by_cases hd : c = '.'
    · subst hd
      rw [readFloatLoop_dot]
      split_ifs
      · rfl
      · rw [ih hcs]
    · rw [readFloatLoop_other c cs st hc hd]

theorem readFloatLoop_dot_after_dot (w : List Char) (hw : '.' ∈ w) (st : FloatScan)
    (hst : st.sawdot = true) : (readFloatLoop w st).2 ≠ [] := by
  induction w generalizing st with
  | nil => simp at hw
  | cons c cs ih =>
    by_cases hc : c = '.'
    · subst hc
      rw [readFloatLoop_dot, if_pos hst]
      simp
    · have hcs : '.' ∈ cs := by
        rcases List.mem_cons.1 hw with h | h
        · exact absurd h.symm hc
        · exact h
      cases hd : c.isDigit with
      | false => rw [readFloatLoop_other c cs st hd hc]; simp
      | true =>
        by_cases hz : c = '0' ∧ st.nd = 0
        · rw [readFloatLoop_zero c cs st hd hz]
          exact ih hcs _ hst
        · rw [readFloatLoop_digit c cs st hd hz]
          exact ih hcs _ hst

theorem readFloatLoop_two_dots (w : List Char) (hw : 2 ≤ w.count '.') (st : FloatScan) :
    (readFloatLoop w st).2 ≠ [] := by
  induction w generalizing st with
  | nil => simp at hw
  | cons c cs ih =>
    by_cases hc : c = '.'
    · subst hc
      rw [readFloatLoop_dot]
      split_ifs
      · simp
      · apply readFloatLoop_dot_after_dot _ _ _ rfl
        rw [List.count_cons_self] at hw
        exact List.count_pos_iff.1 (by omega)
    · have hcs : 2 ≤ cs.count '.' := by
        rwa [List.count_cons_of_ne (Ne.symm hc)] at hw
      cases hd : c.isDigit with
      | false => rw [readFloatLoop_other c cs st hd hc]; simp
      | true =>
        by_cases hz : c = '0' ∧ st.nd = 0
        · rw [readFloatLoop_zero c cs st hd hz]
          exact ih hcs _
        · rw [readFloatLoop_digit c cs st hd hz]
          exact ih hcs _

theorem digitsFrom_append (acc : Nat) (a b : List Char) :
    digitsFrom acc (a ++ b) = digitsFrom (digitsFrom acc a) b := by
  simp [digitsFrom, List.foldl_append]

theorem decimalNumber_cases (w : List Char) (n f : Nat)
    (h : decimalNumber w = some (n, f)) :
    ∃ a : List Char, (∀ c ∈ a, c.isDigit = true) ∧
      ((w = a ∧ a ≠ [] ∧ n = digitsFrom 0 a ∧ f = 0) ∨
       ∃ b : List Char, (∀ c ∈ b, c.isDigit = true) ∧ w = a ++ '.' :: b ∧
         (a ≠ [] ∨ b ≠ []) ∧ n = digitsFrom 0 (a ++ b) ∧ f = b.length) := by
  have hw : w.takeWhile Char.isDigit ++ w.dropWhile Char.isDigit = w :=
    List.takeWhile_append_dropWhile _ _
  have ha : ∀ c ∈ w.takeWhile Char.isDigit, c.isDigit = true :=
    fun c hc => (List.mem_takeWhile_imp hc)
  unfold decimalNumber at h
  simp only at h
  refine ⟨w.takeWhile Char.isDigit, ha, ?_⟩
  cases hd : w.dropWhile Char.isDigit with
  | nil =>
    rw [hd] at h hw
    simp only at h
    split_ifs at h with he
    simp only [Option.some.injEq, Prod.mk.injEq] at h
    left
    refine ⟨by simpa using hw.symm, ?_, h.1.symm, h.2.symm⟩
    simpa [List.isEmpty_iff] using he
  | cons c b =>
    rw [hd] at h hw
    simp only at h
    split_ifs at h with he
    simp only [Option.some.injEq, Prod.mk.injEq] at h
    obtain ⟨rfl, hb, hne⟩ := he
    right
    refine ⟨b, ?_, hw.symm, ?_, h.1.symm, h.2.symm⟩
    · simpa using hb
    · simpa [List.isEmpty_iff] using hne

theorem readFloatLoop_decimal (w : List Char) (n f : Nat)
    (h : decimalNumber w = some (n, f)) :
    ∃ st, readFloatLoop w FloatScan.init = (st, []) ∧ st.sawdigits = true ∧
      st.mantissa = n ∧
      ((st.nd : Int) - (if st.sawdot then st.dp else (st.nd : Int))).toNat = f := by
  obtain ⟨a, ha, h | ⟨b, hb, hw, hne, hn, hf⟩⟩ := decimalNumber_cases w n f h
  · obtain ⟨rfl, hne, rfl, rfl⟩ := h
    obtain ⟨st, h1, h2, h3, h4, -, -⟩ :=
      readFloatLoop_digits w ha [] FloatScan.init (fun _ => rfl)
    rw [List.append_nil] at h1
    refine ⟨st, by rw [h1]; rfl, ?_, by rw [h4]; rfl, ?_⟩
    · rw [h3]
      cases w with
      | nil => exact absurd rfl hne
      | cons c cs => simp
    · have : st.sawdot = false := by rw [h2]; rfl
      simp [this]
  · subst hw hn hf
    obtain ⟨st, h1, h2, h3, h4, -, h6⟩ :=
      readFloatLoop_digits a ha ('.' :: b) FloatScan.init (fun _ => rfl)
    have hs : st.sawdot = false := by rw [h2]; rfl
    obtain ⟨st2, k1, k2, k3, k4, k5, -⟩ :=
      readFloatLoop_digits b hb [] { st with sawdot := true, dp := st.nd } h6
    rw [List.append_nil] at k1
    refine ⟨st2, ?_, ?_, ?_, ?_⟩
    · rw [h1, readFloatLoop_dot, hs]
      simp only [Bool.false_eq_true, if_false]
      rw [k1]
      rfl
    · rw [k3]
      simp only [h3]
      rcases hne with hne | hne
      · cases a with
        | nil => exact absurd rfl hne
        | cons c cs => simp
      · cases b with
        | nil => exact absurd rfl hne
        | cons c cs => simp
    · rw [k4, digitsFrom_append]
      simp only [h4]
      rfl
    · have : st2.sawdot = true := by rw [k2]
      simp only [this, if_true, k5]
      simp

/-! ### `ParseFloat` and `removeCommas` -/

theorem parseFloat_decimal (s : String) (n f : Nat)
    (h : decimalNumber s.data = some (n, f)) :
    parseFloat s =
      if Float64.roundUnits (n * Float64.one) (10 ^ f) < Float64.overflow then
        (Float64.fin (Float64.roundUnits (n * Float64.one) (10 ^ f)), none)
      else (Float64.posInf, some (.numRange s)) := by
  obtain ⟨st, h1, h2, h3, h4⟩ := readFloatLoop_decimal s.data n f h
  unfold parseFloat
  rw [h1]
  simp only [h2, h3, h4, Bool.not_true, Bool.false_eq_true, if_false, List.isEmpty_nil]

theorem parseFloat_ok (s : String) (v : Float64) (h : parseFloat s = (v, none)) :
    ∃ u : Nat, v = Float64.fin u ∧ Float64.IsFloat u ∧ u < Float64.overflow := by
  unfold parseFloat at h
  generalize readFloatLoop s.data FloatScan.init = r at h
  obtain ⟨st, rest⟩ := r
  simp only at h
  split_ifs at h <;> simp only [Prod.mk.injEq, and_true, reduceCtorEq, and_false] at h
  all_goals exact ⟨_, h.symm, Float64.roundUnits_isFloat _ _ (by positivity), by assumption⟩

theorem removeCommas_eq (str : String) :
    removeCommas str =
      if (parseFloat (replaceAllString str "")).2 = none then
        parseFloat (replaceAllString str "")
      else (Float64.zero, (parseFloat (replaceAllString str "")).2) := by
  unfold removeCommas
  rcases parseFloat (replaceAllString str "") with ⟨v, _ | err⟩ <;> simp

theorem removeCommas_ok (s : String) (v : Float64) (h : removeCommas s = (v, none)) :
    ∃ u : Nat, v = Float64.fin u ∧ Float64.IsFloat u ∧ u < Float64.overflow := by
  rw [removeCommas_eq] at h
  split_ifs at h with h1
  · exact parseFloat_ok _ v h
  · simp only [Prod.mk.injEq] at h
    exact absurd h.2 h1

theorem removeCommas_value_of_error (s : String) (err : GoError)
    (h : (removeCommas s).2 = some err) : removeCommas s = (Float64.zero, some err) := by
  rw [removeCommas_eq] at h ⊢
  split_ifs at h ⊢ with h1
  · rw [h1] at h; cases h
  · simp only at h; rw [h]

theorem removeCommas_decimal (s : String) (n f : Nat)
    (h : decimalNumber (s.data.filter keep) = some (n, f)) :
    removeCommas s =
      if Float64.roundUnits (n * Float64.one) (10 ^ f) < Float64.overflow then
        (Float64.fin (Float64.roundUnits (n * Float64.one) (10 ^ f)), none)
      else (Float64.zero, some (.numRange (replaceAllString s ""))) := by
  rw [← replaceAllString_data] at h
  rw [removeCommas_eq, parseFloat_decimal _ n f h]
  split_ifs <;> simp_all

theorem removeCommas_syntax (s : String)
    (h : (∀ c ∈ s.data, c.isDigit = false) ∨ 2 ≤ s.data.count '.') :
    removeCommas s = (Float64.zero, some (.numSyntax (replaceAllString s ""))) := by
  have key : parseFloat (replaceAllString s "") =
      (Float64.zero, some (.numSyntax (replaceAllString s ""))) := by
    unfold parseFloat
    rcases h with h | h
    · have hs := readFloatLoop_no_digit (replaceAllString s "").data
        (by
          rw [replaceAllString_data]
          intro c hc
          exact h c (List.mem_filter.1 hc).1) FloatScan.init
      generalize readFloatLoop (replaceAllString s "").data FloatScan.init = r at hs
      obtain ⟨st, rest⟩ := r
      simp only at hs
      have : st.sawdigits = false := by rw [hs]; rfl
      simp [this]
    · have hs := readFloatLoop_two_dots (replaceAllString s "").data
        (by
          rw [replaceAllString_data, List.count_filter (by rfl)]
          exact h) FloatScan.init
      generalize readFloatLoop (replaceAllString s "").data FloatScan.init = r at hs
      obtain ⟨st, rest⟩ := r
      simp only at hs
      cases rest with
      | nil => exact absurd rfl hs
      | cons c cs => simp
  rw [removeCommas_eq, key]
  simp

/-! ### Multiplication by 1024 and `bytesConverter` -/

theorem float64_one_pos : 0 < Float64.one := by
  unfold Float64.one
  positivity

theorem f1024_eq : f1024 = Float64.fin ((1024 * Float64.one : Nat) : Int) := by
  have h1 : Float64.roundUnits (1024 * Float64.one) 1 = 1024 * Float64.one :=
    Float64.roundUnits_exact _ ⟨1, 1084, by norm_num, by
      unfold Float64.one
      rw [show (1024 : Nat) = 2 ^ 10 by norm_num, ← pow_add, Nat.one_mul]⟩
  have h2 : 1024 * Float64.one < Float64.overflow := by
    decide!
  simp only [f1024, Float64.ofInt, Float64.ofMagnitude]
  rw [show (1024 : Int).natAbs = 1024 from rfl, h1, if_pos h2]
  simp

theorem mul_f1024 (u : Nat) (hu : Float64.IsFloat u) :
    (Float64.fin (u : Int)).mul f1024 = Float64.scale u 1 := by
  have h1 : Float64.roundUnits (u * (1024 * Float64.one)) Float64.one = u * 1024 := by
    have := Float64.roundUnits_mul_right (u * 1024) 1 Float64.one float64_one_pos
    rw [Nat.one_mul, Nat.mul_assoc] at this
    rw [this]
    have h := Float64.IsFloat.mul_pow u 1 hu
    rw [pow_one] at h
    exact Float64.roundUnits_exact _ h
  rw [f1024_eq]
  simp only [Float64.mul, Float64.ofMagnitude, Int.natAbs_ofNat, h1, Float64.scale, pow_one]
  have : ¬ ((u : Int) < 0) := by omega
  have h2 : ¬ (1024 * (Float64.one : Int) < 0) := by
    have := float64_one_pos
    omega
  simp [this, h2]

theorem scale_mul_f1024 (u k : Nat) (hu : Float64.IsFloat u) :
    (Float64.scale u k).mul f1024 = Float64.scale u (k + 1) := by
  unfold Float64.scale
  split_ifs with h1 h2 h2
  · rw [mul_f1024 _ (Float64.IsFloat.mul_pow u k hu), Float64.scale, pow_one, Nat.mul_assoc,
      ← pow_succ, if_pos h2]
  · rw [mul_f1024 _ (Float64.IsFloat.mul_pow u k hu), Float64.scale, pow_one, Nat.mul_assoc,
      ← pow_succ, if_neg h2]
  · exfalso
    apply h1
    refine lt_of_le_of_lt ?_ h2
    exact Nat.mul_le_mul_left u (Nat.pow_le_pow_right (by norm_num) (Nat.le_succ k))
  · rw [f1024_eq]
    have hpos : ¬ ((1024 * Float64.one : Nat) : Int) = 0 := by
      have := float64_one_pos
      omega
    have hneg : ¬ ((1024 * Float64.one : Nat) : Int) < 0 := by omega
    simp only [Float64.mul, if_neg hpos, if_neg hneg]

theorem scale_zero (u : Nat) (hu : u < Float64.overflow) :
    Float64.scale u 0 = Float64.fin (u : Int) := by
  simp [Float64.scale, hu]

theorem bytesConverter_unit (s : String) (u k : Nat)
    (hn : removeCommas s = (Float64.fin (u : Int), none)) (hu : Float64.IsFloat u)
    (hlt : u < Float64.overflow) (hk : firstUnit s = some k) :
    bytesConverter s = (Float64.scale u k, none) := by
  have e0 := scale_zero u hlt
  have e1 := scale_mul_f1024 u 0 hu
  have e2 := scale_mul_f1024 u 1 hu
  have e3 := scale_mul_f1024 u 2 hu
  have e4 := scale_mul_f1024 u 3 hu
  rw [e0] at e1
  simp only [Nat.zero_add, Nat.reduceAdd] at e1 e2 e3 e4
  unfold bytesConverter
  rw [hn]
  simp only [e1, e2, e3, e4]
  simp only [firstUnit, unitNames, List.findIdx?_cons, List.findIdx?_nil,
    ← stringsContains_iff, Bool.decide_eq_true] at hk
  by_cases h1 : stringsContains s "bytes" = true
  · simp only [h1, if_true] at hk ⊢
    cases hk
    rw [e0]
  · simp only [h1] at hk ⊢
    by_cases h2 : stringsContains s "KB" = true
    · simp only [h2, if_true] at hk ⊢
      cases hk
      rfl
    · simp only [h2] at hk ⊢
      by_cases h3 : stringsContains s "MB" = true
      · simp only [h3, if_true] at hk ⊢
        cases hk
        rfl
      · simp only [h3] at hk ⊢
        by_cases h4 : stringsContains s "GB" = true
        · simp only [h4, if_true] at hk ⊢
          cases hk
          rfl
        · simp only [h4] at hk ⊢
          by_cases h5 : stringsContains s "TB" = true
          · simp only [h5, if_true] at hk ⊢
            cases hk
            rfl
          · simp [h5] at hk

theorem decimalNumber_none (w : List Char) (hw : ∀ c ∈ w, keep c = true)
    (h : decimalNumber w = none) :
    (∀ c ∈ w, c.isDigit = false) ∨ 2 ≤ w.count '.' := by
  have hsplit : w.takeWhile Char.isDigit ++ w.dropWhile Char.isDigit = w :=
    List.takeWhile_append_dropWhile _ _
  unfold decimalNumber at h
  simp only at h
  cases hd : w.dropWhile Char.isDigit with
  | nil =>
    rw [hd] at h hsplit
    simp only at h
    split_ifs at h with he
    left
    rw [List.append_nil] at hsplit
    rw [← hsplit, List.isEmpty_iff.1 he]
    simp
  | cons c b =>
    have hc : c.isDigit = false := by
      have := List.head_dropWhile_not Char.isDigit w (by rw [hd]; simp)
      simpa [hd] using this
    have hcw : c ∈ w := by
      rw [← hsplit, hd]
      simp
    have hdot : c = '.' := by
      have := hw c hcw
      simpa [keep, hc] using this
    subst hdot
    rw [hd] at h hsplit
    simp only at h
    split_ifs at h with he
    simp only [true_and, not_and_or] at he
    rcases he with he | he
    · right
      simp only [List.all_eq_true, not_forall] at he
      obtain ⟨x, hx, hxd⟩ := he
      have hxw : x ∈ w := by
        rw [← hsplit]
        simp [hx]
      have hxdot : x = '.' := by
        have := hw x hxw
        simpa [keep, hxd] using this
      subst hxdot
      rw [← hsplit, List.count_append, List.count_cons_self]
      have := List.count_pos_iff.2 hx
      omega
    · left
      simp only [Bool.or_eq_true, Bool.not_eq_true', not_or, Bool.not_eq_false,
        List.isEmpty_iff] at he
      rw [← hsplit, he.1, he.2]
      simp

theorem removeCommas_not_decimal (s : String)
    (h : decimalNumber (s.data.filter keep) = none) :
    (∀ c ∈ s.data, c.isDigit = false) ∨ 2 ≤ s.data.count '.' := by
  rcases decimalNumber_none _ (fun c hc => (List.mem_filter.1 hc).2) h with h1 | h1
  · left
    intro c hc
    cases hd : c.isDigit with
    | false => rfl
    | true =>
      have := h1 c (List.mem_filter.2 ⟨hc, by simp [keep, hd]⟩)
      rw [hd] at this
      cases this
  · right
    rwa [List.count_filter (by rfl)] at h1

/-! ## C1 to C4: the parsers -/

set_option maxRecDepth 100000 in
/-- C1, as stated, fails on the code. The text of 310 digits is the valid base-10 number
`10^309`, yet `removeCommas` returns a range error and the value zero, not that number. -/
theorem removeCommas_exact_value_counterexample :
    decimalNumber (tenPow309.data.filter keep) = some (10 ^ 309, 0) ∧
    removeCommas tenPow309 = (Float64.zero, some (.numRange tenPow309)) := by
  refine ⟨?_, ?_⟩ <;> decide!

set_option maxRecDepth 100000 in
/-- C1, amended. For every string `s`, `removeCommas` deletes every character that is
not one of `0` to `9` or the point; when the remainder writes the base-10 number
`n / 10^f` it returns that number's value as a float64, unless the value is too large:
with `r` the magnitude of at most 53 significant bits nearest to `n / 10^f` (in units of
`2^-1074`, ties to even), it returns `r` when `r` is below `2^1024` and fails with a
range error, returning no value, otherwise. The returned value is the number itself
whenever the number is a float64 (`n / 10^f = k * 2^-1074` for a finite float64
magnitude `k`); in particular `removeCommas "1,234.50"` is 1234.5, which is
`2469 * 2^1073` units. -/
theorem removeCommas_decimal_value (s : String) :
    (replaceAllString s "").data = s.data.filter keep ∧
    (∀ n f : Nat, decimalNumber (s.data.filter keep) = some (n, f) →
      (removeCommas s =
        (if Float64.roundUnits (n * Float64.one) (10 ^ f) < Float64.overflow then
          (Float64.fin (Float64.roundUnits (n * Float64.one) (10 ^ f)), none)
        else (Float64.zero, some (.numRange (replaceAllString s "")))) ∧
      Float64.IsFloat (Float64.roundUnits (n * Float64.one) (10 ^ f)) ∧
      ∀ k : Nat, Float64.IsFloat k →
        |((n * Float64.one : Nat) : Int) -
            (Float64.roundUnits (n * Float64.one) (10 ^ f) : Nat) * (10 ^ f : Nat)| ≤
          |((n * Float64.one : Nat) : Int) - k * (10 ^ f : Nat)|) ∧
      ∀ k : Nat, Float64.IsFloat k → k < Float64.overflow →
        n * Float64.one = k * 10 ^ f → removeCommas s = (Float64.fin k, none)) ∧
    removeCommas "1,234.50" = (Float64.fin (2469 * 2 ^ 1073 : Nat), none) := by
  refine ⟨replaceAllString_data s, ?_, by decide!⟩
  intro n f h
  refine ⟨⟨removeCommas_decimal s n f h, Float64.roundUnits_isFloat _ _ (by positivity),
    fun k hk => Float64.roundUnits_nearest _ _ k (by positivity) hk⟩, ?_⟩
  intro k hk hlt he
  have hr : Float64.roundUnits (n * Float64.one) (10 ^ f) = k := by
    have := Float64.roundUnits_mul_right k 1 (10 ^ f) (by positivity)
    rw [Nat.one_mul, ← he] at this
    rw [this, Float64.roundUnits_exact k hk]
  rw [removeCommas_decimal s n f h, hr, if_pos hlt]

set_option maxRecDepth 100000 in
/-- The amended C1 at the text `1,234.50`, which writes `123450 / 10^2`. -/
theorem removeCommas_decimal_value_witness :
    decimalNumber ("1,234.50".data.filter keep) = some (123450, 2) ∧
    removeCommas "1,234.50" = (Float64.fin (2469 * 2 ^ 1073 : Nat), none) :=
  ⟨by decide,
    ((removeCommas_decimal_value "1,234.50").2.1 123450 2 (by decide)).2 (2469 * 2 ^ 1073)
      ⟨2469, 1073, by norm_num, rfl⟩ (by decide!) (by decide!)⟩

set_option maxRecDepth 100000 in
/-- C2. For every string `s` on which `removeCommas` succeeds with value `n` and which
contains at least one of the substrings `bytes`, `KB`, `MB`, `GB`, `TB`, the value `n`
is `u` units for a natural number `u`, and `bytesConverter` returns the float64
`n * 1024^k` for the index `k` of the first unit name, in that order, that occurs in
`s`: the exact product `u * 1024^k` units, or `+Inf` when the product is `2^1024` or
more. So `10 GB` gives `10 * 1024^3`, `5 bytes` gives 5, `1 GBX` gives `1024^3`, and a
string with both `bytes` and `TB` gives `n` itself. -/
theorem bytesConverter_scale :
    (∀ (s : String) (n : Float64), removeCommas s = (n, none) →
      (∃ t ∈ unitNames, t.data <:+: s.data) →
      ∃ u k : Nat, n = Float64.fin u ∧ k < 5 ∧ firstUnit s = some k ∧
        bytesConverter s = (Float64.scale u k, none)) ∧
    bytesConverter "10 GB" = (Float64.fin (10 * 1024 ^ 3 * Float64.one : Nat), none) ∧
    bytesConverter "5 bytes" = (Float64.fin (5 * Float64.one : Nat), none) ∧
    bytesConverter "1 GBX" = (Float64.fin (1024 ^ 3 * Float64.one : Nat), none) ∧
    (∀ (s : String) (n : Float64), removeCommas s = (n, none) →
      "bytes".data <:+: s.data → "TB".data <:+: s.data → bytesConverter s = (n, none)) := by
  refine ⟨?_, by decide!, by decide!, by decide!, ?_⟩
  · intro s n hn hunit
    obtain ⟨u, rfl, hu, hlt⟩ := removeCommas_ok s n hn
    have hk : ∃ k, k < 5 ∧ firstUnit s = some k := by
      cases hf : firstUnit s with
      | none =>
        exfalso
        obtain ⟨t, ht, hts⟩ := hunit
        simp only [firstUnit, List.findIdx?_eq_none_iff] at hf
        have := hf t ht
        simp [hts] at this
      | some k =>
        refine ⟨k, ?_, rfl⟩
        have := List.findIdx?_eq_some_iff_findIdx_eq.1 hf
        simpa [unitNames] using this.1
    obtain ⟨k, hk5, hk⟩ := hk
    exact ⟨u, k, rfl, hk5, hk, bytesConverter_unit s u k hn hu hlt hk⟩
  · intro s n hn hb _
    obtain ⟨u, rfl, hu, hlt⟩ := removeCommas_ok s n hn
    have hk : firstUnit s = some 0 := by
      simp [firstUnit, unitNames, List.findIdx?_cons, hb]
    rw [bytesConverter_unit s u 0 hn hu hlt hk, scale_zero u hlt]

set_option maxRecDepth 100000 in
/-- C2 at the string `10 GB`: the numeric part is 10 and the first unit is `GB`. -/
theorem bytesConverter_scale_witness :
    removeCommas "10 GB" = (Float64.fin (10 * Float64.one : Nat), none) ∧
    ∃ u k : Nat, Float64.fin (10 * Float64.one : Nat) = Float64.fin u ∧ k < 5 ∧
      firstUnit "10 GB" = some k ∧ bytesConverter "10 GB" = (Float64.scale u k, none) :=
  ⟨by decide!, bytesConverter_scale.1 "10 GB" _ (by decide!) ⟨"GB", by decide, by decide⟩⟩

theorem bytesConverter_of_error (s : String) (err : GoError)
    (h : (removeCommas s).2 = some err) : bytesConverter s = (Float64.zero, some err) := by
  unfold bytesConverter
  rw [removeCommas_value_of_error s err h]

theorem bytesConverter_errorf (s : String) (n : Float64)
    (hunit : ∀ t ∈ unitNames, ¬ t.data <:+: s.data) (h : removeCommas s = (n, none)) :
    bytesConverter s =
      (Float64.zero, some (.errorf ("Could not convert " ++ s ++ " to bytes"))) := by
  have hc : ∀ t ∈ unitNames, stringsContains s t = false := fun t ht => by
    have := hunit t ht
    rw [← stringsContains_iff] at this
    simpa using this
  simp only [unitNames, List.mem_cons, List.mem_singleton, List.not_mem_nil, or_false,
    forall_eq_or_imp, forall_eq] at hc
  unfold bytesConverter
  rw [h]
  simp [hc.1, hc.2.1, hc.2.2.1, hc.2.2.2.1, hc.2.2.2.2]

set_option maxRecDepth 100000 in
/-- C3, as stated, fails on the code. The string `XB` contains none of the five unit
names, yet `bytesConverter` fails with the syntax error of the numeric parse, not with
the error `Could not convert XB to bytes`. -/
theorem bytesConverter_unknown_unit_counterexample :
    (∀ t ∈ unitNames, ¬ t.data <:+: "XB".data) ∧
    bytesConverter "XB" = (Float64.zero, some (.numSyntax "")) ∧
    (bytesConverter "XB").2 ≠ some (.errorf "Could not convert XB to bytes") := by
  refine ⟨by decide, by decide!, by decide!⟩

set_option maxRecDepth 100000 in
/-- C3, amended. For every string `s` that contains none of the five substrings `bytes`,
`KB`, `MB`, `GB`, `TB`, `bytesConverter` fails and returns no value: with the error
`Could not convert s to bytes` when the numeric part of `s` parsed successfully, and
with the error of the numeric parse otherwise; `3 XB` and `10 gb` fail with the
unknown-unit error. -/
theorem bytesConverter_no_unit (s : String)
    (hunit : ∀ t ∈ unitNames, ¬ t.data <:+: s.data) :
    ((∀ n : Float64, removeCommas s = (n, none) →
        bytesConverter s =
          (Float64.zero, some (.errorf ("Could not convert " ++ s ++ " to bytes")))) ∧
      (∀ err : GoError, (removeCommas s).2 = some err →
        bytesConverter s = (Float64.zero, some err))) ∧
    bytesConverter "3 XB" = (Float64.zero, some (.errorf "Could not convert 3 XB to bytes")) ∧
    bytesConverter "10 gb" =
      (Float64.zero, some (.errorf "Could not convert 10 gb to bytes")) :=
  ⟨⟨fun n h => bytesConverter_errorf s n hunit h,
     fun err h => bytesConverter_of_error s err h⟩, by decide!, by decide!⟩

set_option maxRecDepth 100000 in
/-- The amended C3 at the string `3 XB`, whose numeric part is 3. -/
theorem bytesConverter_no_unit_witness :
    (∀ t ∈ unitNames, ¬ t.data <:+: "3 XB".data) ∧
    removeCommas "3 XB" = (Float64.fin (3 * Float64.one : Nat), none) ∧
    bytesConverter "3 XB" =
      (Float64.zero, some (.errorf ("Could not convert " ++ "3 XB" ++ " to bytes"))) :=
  ⟨by decide, by decide!,
    (bytesConverter_no_unit "3 XB" (by decide)).1.1 (Float64.fin (3 * Float64.one : Nat))
      (by decide!)⟩

set_option maxRecDepth 100000 in
/-- C4. `removeCommas` fails with the syntax error of `ParseFloat`, and returns no value,
whenever the string left after deleting the characters other than digits and points
writes no number: for every `s` without a digit (the empty string, `GB`, a lone point)
and for every `s` with two or more points. -/
theorem removeCommas_format_error (s : String)
    (h : decimalNumber (s.data.filter keep) = none ∨ (∀ c ∈ s.data, c.isDigit = false) ∨
      2 ≤ s.data.count '.') :
    removeCommas s = (Float64.zero, some (.numSyntax (replaceAllString s ""))) ∧
    removeCommas "" = (Float64.zero, some (.numSyntax "")) ∧
    removeCommas "GB" = (Float64.zero, some (.numSyntax "")) ∧
    removeCommas "." = (Float64.zero, some (.numSyntax ".")) ∧
    removeCommas "1.2.3" = (Float64.zero, some (.numSyntax "1.2.3")) := by
  refine ⟨?_, by decide!, by decide!, by decide!, by decide!⟩
  rcases h with h | h
  · exact removeCommas_syntax s (removeCommas_not_decimal s h)
  · exact removeCommas_syntax s h

set_option maxRecDepth 100000 in
/-- C4 at the string `1.2.3 GB`, which has two points. -/
theorem removeCommas_format_error_witness :
    2 ≤ "1.2.3 GB".data.count '.' ∧
    removeCommas "1.2.3 GB" = (Float64.zero, some (.numSyntax "1.2.3")) :=
  ⟨by decide, (removeCommas_format_error "1.2.3 GB" (Or.inr (Or.inr (by decide)))).1⟩

/-! ### The loop of `extractRepoSummary` -/

theorem extractRepoSummaryLoop_eq (lower : Char → Char) (e : Exporter)
    (l : List RepositorySummary) (rs : repoSummary) (acc : List repoSummary) :
    extractRepoSummaryLoop lower e l rs acc =
      if (nonTotal l).all wellFormed then
        (e, some (acc ++ (nonTotal l).map (summaryOf lower)))
      else (e.inc, none) := by
  induction l generalizing rs acc with
  | nil => simp [extractRepoSummaryLoop, nonTotal]
  | cons repo rest ih =>
    unfold extractRepoSummaryLoop
    by_cases ht : repo.RepoKey = "TOTAL"
    · rw [if_pos ht, ih]
      simp [nonTotal, ht]
    · rw [if_neg ht]
      have hnt : nonTotal (repo :: rest) = repo :: nonTotal rest := by
        simp [nonTotal, ht]
      rw [hnt]
      rcases hb : bytesConverter repo.UsedSpace with ⟨v, _ | errb⟩
      · rcases hp : removeCommas repo.Percentage with ⟨p, _ | errp⟩
        · simp only [ih, List.all_cons, wellFormed, hb, hp, Option.isNone_none, Bool.and_self,
            Bool.true_and, List.map_cons, List.append_assoc, List.singleton_append]
          simp [summaryOf, hb, hp]
        · simp [wellFormed, hb, hp]
      · simp [wellFormed, hb]

/-! ### The loops of `exportRepo` -/

theorem exportRepoCase_eq {Desc : Type} (r : repoSummary) (metricName : String)
    (metric : Desc) (ch : List (Metric Desc)) :
    exportRepoCase r metricName metric ch = ch ++ caseMetrics r (metricName, metric) := by
  unfold caseMetrics exportRepoCase
  split_ifs <;> simp

theorem exportRepoRange_eq {Desc : Type} (r : repoSummary) (order : List (String × Desc))
    (ch : List (Metric Desc)) :
    exportRepoRange r order ch = ch ++ order.flatMap (caseMetrics r) := by
  induction order generalizing ch with
  | nil => simp [exportRepoRange]
  | cons kv rest ih =>
    obtain ⟨k, d⟩ := kv
    rw [exportRepoRange, ih, exportRepoCase_eq]
    simp

theorem exportRepoFrom_eq {Desc : Type} (storageMetrics : Nat → List (String × Desc))
    (i : Nat) (rs : List repoSummary) (ch : List (Metric Desc)) :
    ∃ blocks : List (List (Metric Desc)),
      exportRepoFrom storageMetrics i rs ch = ch ++ blocks.flatten ∧
      List.Forall₂ (fun r b => ∃ j, b = (storageMetrics j).flatMap (caseMetrics r)) rs blocks := by
  induction rs generalizing i ch with
  | nil => exact ⟨[], by simp [exportRepoFrom], List.Forall₂.nil⟩
  | cons r rest ih =>
    obtain ⟨blocks, h1, h2⟩ := ih (i + 1) (exportRepoRange r (storageMetrics i) ch)
    refine ⟨(storageMetrics i).flatMap (caseMetrics r) :: blocks, ?_, List.Forall₂.cons ⟨i, rfl⟩ h2⟩
    rw [exportRepoFrom, h1, exportRepoRange_eq]
    simp

theorem caseMetrics_label {Desc : Type} (r : repoSummary) (kv : String × Desc)
    (m : Metric Desc) (hm : m ∈ caseMetrics r kv) :
    m.labelValues = [r.Name, r.Type_, r.PackageType] := by
  unfold caseMetrics exportRepoCase at hm
  split_ifs at hm <;> simp [mustNewConstMetric] at hm <;> rw [hm]

theorem caseMetrics_other {Desc : Type} (r : repoSummary) (kv : String × Desc)
    (hk : kv.1 ∉ ["repoUsed", "repoFolders", "repoItems", "repoFiles", "repoPercentage"]) :
    caseMetrics r kv = [] := by
  simp only [List.mem_cons, List.mem_singleton, List.not_mem_nil, or_false, not_or] at hk
  simp [caseMetrics, exportRepoCase, hk]

theorem caseMetrics_entries {Desc : Type} (d : RepoDescs Desc) (r : repoSummary) :
    d.entries.flatMap (caseMetrics r) = repoObservations d r := by
  simp [RepoDescs.entries, caseMetrics, exportRepoCase, repoObservations, mustNewConstMetric]

theorem range_perm {Desc : Type} (d : RepoDescs Desc) (order : List (String × Desc))
    (h : IsRangeOf d order) (r : repoSummary) :
    (order.flatMap (caseMetrics r)).Perm (repoObservations d r) := by
  obtain ⟨hnd, hmem⟩ := h
  have hnd5 : d.entries.Nodup := by
    have : (d.entries.map Prod.fst).Nodup := by
      simp [RepoDescs.entries]
    exact List.Nodup.of_map _ this
  have hsub : d.entries.Subperm order := List.subperm_of_subset hnd5 hmem
  obtain ⟨l, hl, hsl⟩ := hsub
  obtain ⟨rest, hrest⟩ := hsl.exists_perm_append
  have hperm : order.Perm (d.entries ++ rest) := hrest.trans (List.Perm.append_right rest hl)
  have hkeys : ((d.entries ++ rest).map Prod.fst).Nodup :=
    (List.Perm.nodup_iff (hperm.map Prod.fst)).1 hnd
  rw [List.map_append, List.nodup_append] at hkeys
  have hrest0 : rest.flatMap (caseMetrics r) = [] := by
    rw [List.flatMap_eq_nil_iff]
    intro kv hkv
    apply caseMetrics_other
    intro hk
    exact hkeys.2.2 (by simpa [RepoDescs.entries] using hk) (List.mem_map_of_mem _ hkv)
  have := hperm.flatMap_right (caseMetrics r)
  rw [List.flatMap_append, hrest0, List.append_nil, caseMetrics_entries] at this
  exact this

theorem forall2_block {α β : Type} (R : α → β → Prop) (l : List α) (bs : List β)
    (h : List.Forall₂ R l bs) : ∀ b ∈ bs, ∃ a ∈ l, R a b := by
  induction h with
  | nil => simp
  | cons hab _ ih =>
    intro b hb
    rcases List.mem_cons.1 hb with rfl | hb
    · exact ⟨_, List.mem_cons_self _ _, hab⟩
    · obtain ⟨a, ha, hR⟩ := ih b hb
      exact ⟨a, List.mem_cons_of_mem _ ha, hR⟩

theorem extractRepoSummary_eq {Desc : Type} (lower : Char → Char)
    (storageMetrics : Nat → List (String × Desc)) (e : Exporter) (info : storageInfo)
    (ch : List (Metric Desc)) :
    extractRepoSummary lower storageMetrics e info ch =
      if (nonTotal info.StorageSummary.RepositoriesSummaryList).all wellFormed then
        (e, exportRepoFrom storageMetrics 0
          ((nonTotal info.StorageSummary.RepositoriesSummaryList).map (summaryOf lower)) ch)
      else (e.inc, ch) := by
  unfold extractRepoSummary
  rw [extractRepoSummaryLoop_eq]
  split_ifs <;> simp [exportRepo]

/-! ## C5 to C10: the emitters -/

/-- C5. For every storage response, the list of summaries that the loop of
`extractRepoSummary` builds holds no record whose name is `TOTAL`, and none of the
observations the method sends has `TOTAL` as its first label value, the name of the
repository. -/
theorem extractRepoSummary_no_total {Desc : Type} (lower : Char → Char)
    (storageMetrics : Nat → List (String × Desc)) (e : Exporter) (info : storageInfo)
    (ch : List (Metric Desc)) :
    (∀ (e' : Exporter) (l : List repoSummary),
      extractRepoSummaryLoop lower e info.StorageSummary.RepositoriesSummaryList
        repoSummary.empty [] = (e', some l) → ∀ r ∈ l, r.Name ≠ "TOTAL") ∧
    ∃ sent : List (Metric Desc),
      (extractRepoSummary lower storageMetrics e info ch).2 = ch ++ sent ∧
      ∀ m ∈ sent, m.labelValues.head? ≠ some "TOTAL" := by
  have hname : ∀ r ∈ (nonTotal info.StorageSummary.RepositoriesSummaryList).map
      (summaryOf lower), r.Name ≠ "TOTAL" := by
    intro r hr
    obtain ⟨repo, hrepo, rfl⟩ := List.mem_map.1 hr
    have := (List.mem_filter.1 hrepo).2
    simpa [summaryOf] using this
  constructor
  · intro e' l h r hr
    rw [extractRepoSummaryLoop_eq] at h
    split_ifs at h
    · simp only [List.nil_append, Prod.mk.injEq, Option.some.injEq] at h
      rw [← h.2] at hr
      exact hname r hr
    · simp at h
  · rw [extractRepoSummary_eq]
    split_ifs
    · obtain ⟨blocks, h1, h2⟩ := exportRepoFrom_eq storageMetrics 0
        ((nonTotal info.StorageSummary.RepositoriesSummaryList).map (summaryOf lower)) ch
      refine ⟨blocks.flatten, h1, ?_⟩
      intro m hm
      obtain ⟨b, hb, hmb⟩ := List.mem_flatten.1 hm
      obtain ⟨r, hr, j, rfl⟩ := forall2_block _ _ _ h2 b hb
      obtain ⟨kv, -, hkv⟩ := List.mem_flatMap.1 hmb
      rw [caseMetrics_label r kv m hkv]
      simpa using hname r hr
    · exact ⟨[], by simp, by simp⟩

set_option maxRecDepth 100000 in
/-- C5 at the response with the rows of `repo-a` and `TOTAL`: the one record built is
that of `repo-a`. -/
theorem extractRepoSummary_no_total_witness :
    extractRepoSummaryLoop id ⟨0⟩ [rowRepoA, rowTotal] repoSummary.empty [] =
      (⟨0⟩, some [summaryOf id rowRepoA]) ∧
    (summaryOf id rowRepoA).Name ≠ "TOTAL" :=
  ⟨by decide!,
    (extractRepoSummary_no_total id (fun _ => sampleTable) ⟨0⟩
      (responseOf [rowRepoA, rowTotal]) []).1 ⟨0⟩ [summaryOf id rowRepoA] (by decide!)
      (summaryOf id rowRepoA) (List.mem_singleton.2 rfl)⟩

set_option maxRecDepth 100000 in
/-- C6, as stated, fails on the code. In the response with the rows of `repo-a` and
`TOTAL`, the `TOTAL` row has a percentage that `removeCommas` rejects, yet the method
sends the five observations of `repo-a` and leaves the failure counter at zero. -/
theorem extractRepoSummary_abort_counterexample :
    rowTotal ∈ (responseOf [rowRepoA, rowTotal]).StorageSummary.RepositoriesSummaryList ∧
    (removeCommas rowTotal.Percentage).2 ≠ none ∧
    (extractRepoSummary id (fun _ => sampleTable) ⟨0⟩
      (responseOf [rowRepoA, rowTotal]) []).1.jsonParseFailures = 0 ∧
    (extractRepoSummary id (fun _ => sampleTable) ⟨0⟩
      (responseOf [rowRepoA, rowTotal]) []).2.length = 5 := by
  refine ⟨by simp [responseOf], by decide!, by decide!, by decide!⟩

/-- C6, amended. If any entry of the nested list other than a `TOTAL` row has a used
space that `bytesConverter` rejects or a percentage that `removeCommas` rejects, the
loop of `extractRepoSummary` yields no list of records, the method sends no
observation, not even for the well-formed rows before the bad one, and the failure
counter is one higher after the call, however many rows are bad. -/
theorem extractRepoSummary_abort {Desc : Type} (lower : Char → Char)
    (storageMetrics : Nat → List (String × Desc)) (e : Exporter) (info : storageInfo)
    (ch : List (Metric Desc))
    (h : ∃ r ∈ info.StorageSummary.RepositoriesSummaryList, r.RepoKey ≠ "TOTAL" ∧
      ((bytesConverter r.UsedSpace).2 ≠ none ∨ (removeCommas r.Percentage).2 ≠ none)) :
    extractRepoSummaryLoop lower e info.StorageSummary.RepositoriesSummaryList
      repoSummary.empty [] = (e.inc, none) ∧
    extractRepoSummary lower storageMetrics e info ch = (e.inc, ch) ∧
    e.inc.jsonParseFailures = e.jsonParseFailures + 1 := by
  have hbad : ¬ (nonTotal info.StorageSummary.RepositoriesSummaryList).all wellFormed = true := by
    obtain ⟨r, hr, hk, hrej⟩ := h
    simp only [List.all_eq_true, not_forall]
    refine ⟨r, List.mem_filter.2 ⟨hr, by simpa using hk⟩, ?_⟩
    simp only [wellFormed, Bool.and_eq_true, Option.isNone_iff_eq_none, not_and_or]
    exact hrej
  refine ⟨?_, ?_, rfl⟩
  · rw [extractRepoSummaryLoop_eq, if_neg hbad]
  · rw [extractRepoSummary_eq, if_neg hbad]

set_option maxRecDepth 100000 in
/-- The amended C6 at a response with the row of `repo-a` followed by two bad rows. -/
theorem extractRepoSummary_abort_witness :
    (bytesConverter rowBad.UsedSpace).2 ≠ none ∧
    extractRepoSummary id (fun _ => sampleTable) ⟨0⟩
      (responseOf [rowRepoA, rowBad, rowBad]) [] = (⟨1⟩, []) :=
  ⟨by decide!,
    (extractRepoSummary_abort id (fun _ => sampleTable) ⟨0⟩
      (responseOf [rowRepoA, rowBad, rowBad]) []
      ⟨rowBad, by simp [responseOf], by decide, Or.inl (by decide!)⟩).2.1⟩

/-- C7. For every response in which every entry of the nested list other than a `TOTAL`
row has a used space accepted by `bytesConverter` and a percentage accepted by
`removeCommas`, the loop of `extractRepoSummary` builds exactly the records
`summaryOf` of the entries other than `TOTAL` rows, in source order: the key unchanged,
both types in lower case, the counts converted, the two parsed values; each record
depends on its own entry only. The failure counter is unchanged by the method, and an
empty list gives an empty sequence. -/
theorem extractRepoSummary_records {Desc : Type} (lower : Char → Char)
    (storageMetrics : Nat → List (String × Desc)) (e : Exporter) (info : storageInfo)
    (ch : List (Metric Desc))
    (h : ∀ r ∈ info.StorageSummary.RepositoriesSummaryList, r.RepoKey ≠ "TOTAL" →
      (bytesConverter r.UsedSpace).2 = none ∧ (removeCommas r.Percentage).2 = none) :
    extractRepoSummaryLoop lower e info.StorageSummary.RepositoriesSummaryList
      repoSummary.empty [] =
        (e, some ((nonTotal info.StorageSummary.RepositoriesSummaryList).map
          (summaryOf lower))) ∧
    (extractRepoSummary lower storageMetrics e info ch).1 = e ∧
    extractRepoSummaryLoop lower e [] repoSummary.empty [] = (e, some []) := by
  have hok : (nonTotal info.StorageSummary.RepositoriesSummaryList).all wellFormed = true := by
    rw [List.all_eq_true]
    intro r hr
    obtain ⟨hr1, hr2⟩ := List.mem_filter.1 hr
    have := h r hr1 (by simpa using hr2)
    simp [wellFormed, this.1, this.2]
  refine ⟨?_, ?_, rfl⟩
  · rw [extractRepoSummaryLoop_eq, if_pos hok, List.nil_append]
  · rw [extractRepoSummary_eq, if_pos hok]

set_option maxRecDepth 100000 in
/-- C7 at the response with the rows of `repo-a` and `TOTAL`, where the `TOTAL` row has
an empty percentage: the record of `repo-a` has the types in lower case, the counts
3, 7 and 10, the used space `2 * 1024^3` and the percentage 10.5. -/
theorem extractRepoSummary_records_witness :
    extractRepoSummaryLoop Char.toLower ⟨0⟩ [rowRepoA, rowTotal] repoSummary.empty [] =
      (⟨0⟩, some [⟨"repo-a", "local", Float64.fin (3 * Float64.one : Nat),
        Float64.fin (7 * Float64.one : Nat), Float64.fin (2 * 1024 ^ 3 * Float64.one : Nat),
        Float64.fin (10 * Float64.one : Nat), "maven",
        Float64.fin (21 * 2 ^ 1073 : Nat)⟩]) :=
  ((extractRepoSummary_records Char.toLower (fun _ => sampleTable) ⟨0⟩
    (responseOf [rowRepoA, rowTotal]) [] (by decide!)).1).trans (by decide!)

theorem flatten_length_five {α β : Type} (R : α → List β → Prop) (l : List α)
    (bs : List (List β)) (h : List.Forall₂ R l bs) (h5 : ∀ a b, R a b → b.length = 5) :
    bs.flatten.length = 5 * l.length := by
  induction h with
  | nil => simp
  | cons hab _ ih =>
    simp only [List.flatten_cons, List.length_append, List.length_cons, ih, h5 _ _ hab]
    ring

set_option maxRecDepth 100000 in
/-- C8. Let every pass over the table `storageMetrics` list a map that holds each of the
five kinds `repoUsed`, `repoFolders`, `repoItems`, `repoFiles`, `repoPercentage`. Then
`exportRepo` sends, for every summary in turn, a block that is a rearrangement of the
five observations of that summary (one per kind, labelled name, type and package type,
valued with the matching field), so it sends `5 * (number of summaries)` metrics. End
to end, a response whose nested list is the row of `repo-a` (used space `2 GB`,
percentage `10.5`, counts 3, 7, 10) followed by a `TOTAL` row yields exactly five
observations, all labelled `repo-a`, the one for the used space valued `2 * 1024^3`. -/
theorem exportRepo_five {Desc : Type} (storageMetrics : Nat → List (String × Desc))
    (d : RepoDescs Desc) (h : ∀ i, IsRangeOf d (storageMetrics i)) (e : Exporter)
    (ch : List (Metric Desc)) :
    (∀ rs : List repoSummary,
      (∃ blocks : List (List (Metric Desc)),
        exportRepo storageMetrics e rs ch = (e, ch ++ blocks.flatten) ∧
        List.Forall₂ (fun r b => b.Perm (repoObservations d r)) rs blocks) ∧
      (exportRepo storageMetrics e rs ch).2.length = ch.length + 5 * rs.length) ∧
    (∀ (lower : Char → Char) (info : storageInfo) (ty pt : String)
      (total : RepositorySummary),
      info.StorageSummary.RepositoriesSummaryList =
        [⟨"repo-a", ty, 3, 7, "2 GB", 10, pt, "10.5"⟩, total] →
      total.RepoKey = "TOTAL" →
      ∃ sent : List (Metric Desc),
        extractRepoSummary lower storageMetrics e info ch = (e, ch ++ sent) ∧
        sent.length = 5 ∧
        (∀ m ∈ sent, m.labelValues =
          ["repo-a", stringsToLower lower ty, stringsToLower lower pt]) ∧
        sent.Perm (repoObservations d
          ⟨"repo-a", stringsToLower lower ty, Float64.fin (3 * Float64.one : Nat),
            Float64.fin (7 * Float64.one : Nat),
            Float64.fin (2 * 1024 ^ 3 * Float64.one : Nat),
            Float64.fin (10 * Float64.one : Nat), stringsToLower lower pt,
            Float64.fin (21 * 2 ^ 1073 : Nat)⟩)) := by
  have hgen : ∀ rs : List repoSummary, ∃ blocks : List (List (Metric Desc)),
      exportRepo storageMetrics e rs ch = (e, ch ++ blocks.flatten) ∧
      List.Forall₂ (fun r b => b.Perm (repoObservations d r)) rs blocks := by
    intro rs
    obtain ⟨blocks, h1, h2⟩ := exportRepoFrom_eq storageMetrics 0 rs ch
    refine ⟨blocks, by rw [exportRepo, h1], ?_⟩
    refine List.Forall₂.imp ?_ h2
    rintro r b ⟨j, rfl⟩
    exact range_perm d _ (h j) r
  constructor
  · intro rs
    refine ⟨hgen rs, ?_⟩
    obtain ⟨blocks, h1, h2⟩ := hgen rs
    rw [h1]
    simp only [List.length_append]
    rw [flatten_length_five _ rs blocks h2 (fun r b hb => by
      rw [hb.length_eq]; rfl)]
  · intro lower info ty pt total hl ht
    have hb : bytesConverter "2 GB" =
        (Float64.fin (2 * 1024 ^ 3 * Float64.one : Nat), none) := by decide!
    have hp : removeCommas "10.5" = (Float64.fin (21 * 2 ^ 1073 : Nat), none) := by decide!
    have h3 : Float64.ofInt 3 = Float64.fin (3 * Float64.one : Nat) := by decide!
    have h7 : Float64.ofInt 7 = Float64.fin (7 * Float64.one : Nat) := by decide!
    have h10 : Float64.ofInt 10 = Float64.fin (10 * Float64.one : Nat) := by decide!
    have hnt : nonTotal info.StorageSummary.RepositoriesSummaryList =
        [⟨"repo-a", ty, 3, 7, "2 GB", 10, pt, "10.5"⟩] := by
      rw [hl]
      simp only [nonTotal, List.filter_cons, ht, bne_self_eq_false, Bool.false_eq_true,
        if_false, List.filter_nil]
      rw [if_pos (by decide)]
    have hperm := range_perm d _ (h 0)
      ⟨"repo-a", stringsToLower lower ty, Float64.fin (3 * Float64.one : Nat),
        Float64.fin (7 * Float64.one : Nat), Float64.fin (2 * 1024 ^ 3 * Float64.one : Nat),
        Float64.fin (10 * Float64.one : Nat), stringsToLower lower pt,
        Float64.fin (21 * 2 ^ 1073 : Nat)⟩
    refine ⟨_, ?_, ?_, ?_, hperm⟩
    · rw [extractRepoSummary_eq, hnt]
      simp only [List.all_cons, List.all_nil, wellFormed, hb, hp, Option.isNone_none,
        Bool.and_self, if_true, List.map_cons, List.map_nil, summaryOf, h3, h7, h10,
        exportRepoFrom, exportRepoRange_eq]
    · rw [hperm.length_eq]
      rfl
    · intro m hm
      obtain ⟨kv, -, hkv⟩ := List.mem_flatMap.1 hm
      exact caseMetrics_label _ kv m hkv

set_option maxRecDepth 100000 in
/-- C8 at the table `sampleTable`, which holds two further kinds, and two summaries. -/
theorem exportRepo_five_witness :
    IsRangeOf sampleDescs sampleTable ∧
    (exportRepo (fun _ => sampleTable) ⟨0⟩ [summaryOf id rowRepoA, summaryOf id rowBad]
      []).2.length = 0 + 5 * 2 :=
  ⟨⟨by decide, by decide⟩,
    ((exportRepo_five (fun _ => sampleTable) sampleDescs
      (fun _ => (⟨by decide, by decide⟩ : IsRangeOf sampleDescs sampleTable))
      ⟨0⟩ []).1 [summaryOf id rowRepoA, summaryOf id rowBad]).2⟩

/-- C9. Called with the empty string as the raw value, `exportCount`, `exportSize` and
`exportFilestore` send nothing on the channel and leave the failure counter one higher;
no observation, zero-valued or other, stands for the absent value. -/
theorem export_empty {Desc : Type} (e : Exporter) (metricName : String) (metric : Desc)
    (fileStoreType fileStoreDir : String) (ch : List (Metric Desc)) :
    exportCount e metricName metric "" ch = (e.inc, ch) ∧
    exportSize e metricName metric "" ch = (e.inc, ch) ∧
    exportFilestore e metricName metric "" fileStoreType fileStoreDir ch = (e.inc, ch) ∧
    e.inc.jsonParseFailures = e.jsonParseFailures + 1 :=
  ⟨rfl, rfl, rfl, rfl⟩

/-- C10. On the success path each scalar emitter sends exactly one metric and leaves
the failure counter unchanged: for a non-empty count that `removeCommas` accepts with
value `v`, `exportCount` sends one metric with no label values and the value `v`; for
a non-empty size that `bytesConverter` accepts with value `v`, `exportSize` sends one
metric without label values and `exportFilestore` one whose label values are the
storage type and the storage directory, in that order, both with the value `v`. -/
theorem export_success {Desc : Type} (e : Exporter) (metricName : String) (metric : Desc)
    (fileStoreType fileStoreDir : String) (ch : List (Metric Desc)) :
    (∀ (count : String) (v : Float64), count ≠ "" → removeCommas count = (v, none) →
      exportCount e metricName metric count ch = (e, ch ++ [⟨metric, v, []⟩])) ∧
    (∀ (size : String) (v : Float64), size ≠ "" → bytesConverter size = (v, none) →
      exportSize e metricName metric size ch = (e, ch ++ [⟨metric, v, []⟩]) ∧
      exportFilestore e metricName metric size fileStoreType fileStoreDir ch =
        (e, ch ++ [⟨metric, v, [fileStoreType, fileStoreDir]⟩])) := by
  constructor
  · intro count v hne hv
    simp [exportCount, hne, hv, mustNewConstMetric]
  · intro size v hne hv
    simp [exportSize, exportFilestore, hne, hv, mustNewConstMetric]

set_option maxRecDepth 100000 in
/-- C10 at the count `1,234` and the size `10 GB`. -/
theorem export_success_witness :
    exportCount ⟨0⟩ "artifacts" "artifacts" "1,234" [] =
      (⟨0⟩, [⟨"artifacts", Float64.fin (1234 * Float64.one : Nat), []⟩]) ∧
    exportFilestore ⟨0⟩ "fileStore" "fileStore" "10 GB" "file-system" "/var/opt" [] =
      (⟨0⟩, [⟨"fileStore", Float64.fin (10 * 1024 ^ 3 * Float64.one : Nat),
        ["file-system", "/var/opt"]⟩]) :=
  ⟨(export_success ⟨0⟩ "artifacts" "artifacts" "file-system" "/var/opt" []).1 "1,234"
      (Float64.fin (1234 * Float64.one : Nat)) (by decide) (by decide!),
    ((export_success ⟨0⟩ "fileStore" "fileStore" "file-system" "/var/opt" []).2 "10 GB"
      (Float64.fin (10 * 1024 ^ 3 * Float64.one : Nat)) (by decide) (by decide!)).2⟩

/-! ## C11 to C20 -/

theorem bytesConverter_value_of_error (s : String) (err : GoError)
    (h : (bytesConverter s).2 = some err) : bytesConverter s = (Float64.zero, some err) := by
  unfold bytesConverter at h ⊢
  rcases hr : removeCommas s with ⟨v, _ | e1⟩
  · rw [hr] at h
    simp only at h ⊢
    split_ifs at h ⊢
    simp_all
  · rw [hr] at h
    simp only at h ⊢
    rw [h]

theorem exportCount_of_error {Desc : Type} (e : Exporter) (metricName : String)
    (metric : Desc) (count : String) (ch : List (Metric Desc)) (hne : count ≠ "")
    (err : GoError) (h : (removeCommas count).2 = some err) :
    exportCount e metricName metric count ch = (e, ch ++ [⟨metric, Float64.zero, []⟩]) := by
  simp [exportCount, hne, removeCommas_value_of_error count err h, mustNewConstMetric]

theorem exportSize_of_error {Desc : Type} (e : Exporter) (metricName : String)
    (metric : Desc) (size : String) (ch : List (Metric Desc)) (hne : size ≠ "")
    (err : GoError) (h : (bytesConverter size).2 = some err) :
    exportSize e metricName metric size ch = (e, ch ++ [⟨metric, Float64.zero, []⟩]) := by
  simp [exportSize, hne, bytesConverter_value_of_error size err h, mustNewConstMetric]

theorem exportFilestore_of_error {Desc : Type} (e : Exporter) (metricName : String)
    (metric : Desc) (size fileStoreType fileStoreDir : String) (ch : List (Metric Desc))
    (hne : size ≠ "") (err : GoError) (h : (bytesConverter size).2 = some err) :
    exportFilestore e metricName metric size fileStoreType fileStoreDir ch =
      (e, ch ++ [⟨metric, Float64.zero, [fileStoreType, fileStoreDir]⟩]) := by
  simp [exportFilestore, hne, bytesConverter_value_of_error size err h, mustNewConstMetric]

set_option maxRecDepth 100000 in
/-- C11, as stated, fails on the code. The count `n/a` is not empty and `removeCommas`
rejects it, yet `exportCount` sends a metric: the channel, empty before the call, holds
one metric after it. -/
theorem exportCount_parse_failure_counterexample :
    "n/a" ≠ "" ∧ (removeCommas "n/a").2 = some (.numSyntax "") ∧
    (exportCount ⟨0⟩ "artifacts" "artifacts" "n/a" []).2.length = 1 := by
  refine ⟨by decide, by decide!, by decide!⟩

set_option maxRecDepth 100000 in
/-- C11, amended. For every non-empty count on which `removeCommas` fails (for example
`n/a` or `1.2.3`), `exportCount` discards the error and sends exactly one metric,
without label values and with the value zero; the failure counter is unchanged. -/
theorem exportCount_parse_failure {Desc : Type} (e : Exporter) (metricName : String)
    (metric : Desc) (count : String) (ch : List (Metric Desc)) (hne : count ≠ "")
    (err : GoError) (h : (removeCommas count).2 = some err) :
    exportCount e metricName metric count ch = (e, ch ++ [⟨metric, Float64.zero, []⟩]) ∧
    (removeCommas "n/a").2 = some (.numSyntax "") ∧
    (removeCommas "1.2.3").2 = some (.numSyntax "1.2.3") :=
  ⟨exportCount_of_error e metricName metric count ch hne err h, by decide!, by decide!⟩

set_option maxRecDepth 100000 in
/-- The amended C11 at the count `1.2.3`. -/
theorem exportCount_parse_failure_witness :
    "1.2.3" ≠ "" ∧ (removeCommas "1.2.3").2 = some (.numSyntax "1.2.3") ∧
    exportCount ⟨0⟩ "artifacts" "artifacts" "1.2.3" [] =
      (⟨0⟩, [] ++ [⟨"artifacts", Float64.zero, []⟩]) :=
  ⟨by decide, by decide!,
    (exportCount_parse_failure ⟨0⟩ "artifacts" "artifacts" "1.2.3" [] (by decide)
      (.numSyntax "1.2.3") (by decide!)).1⟩

set_option maxRecDepth 100000 in
/-- C12, as stated, fails on the code. The size `123` is not empty and `bytesConverter`
rejects it for want of a unit, yet `exportSize` and `exportFilestore` each send a
metric and leave the failure counter at zero. -/
theorem exportSize_parse_failure_counterexample :
    "123" ≠ "" ∧
    (bytesConverter "123").2 = some (.errorf "Could not convert 123 to bytes") ∧
    (exportSize ⟨0⟩ "binariesSize" "binariesSize" "123" []).2.length = 1 ∧
    (exportSize ⟨0⟩ "binariesSize" "binariesSize" "123" []).1.jsonParseFailures = 0 ∧
    (exportFilestore ⟨0⟩ "fileStore" "fileStore" "123" "file-system" "/var/opt"
      []).2.length = 1 ∧
    (exportFilestore ⟨0⟩ "fileStore" "fileStore" "123" "file-system" "/var/opt"
      []).1.jsonParseFailures = 0 := by
  refine ⟨by decide, by decide!, by decide!, by decide!, by decide!, by decide!⟩

set_option maxRecDepth 100000 in
/-- C12, amended. An individual failure of a scalar size is swallowed: for every
non-empty size on which `bytesConverter` fails (for example `123` without a unit, or
`3 XB`), `exportSize` and `exportFilestore` discard the error and send exactly one
metric with the value zero (for `exportFilestore` with the storage type and directory
as label values); the failure counter is unchanged. -/
theorem exportSize_parse_failure {Desc : Type} (e : Exporter) (metricName : String)
    (metric : Desc) (size fileStoreType fileStoreDir : String) (ch : List (Metric Desc))
    (hne : size ≠ "") (err : GoError) (h : (bytesConverter size).2 = some err) :
    exportSize e metricName metric size ch = (e, ch ++ [⟨metric, Float64.zero, []⟩]) ∧
    exportFilestore e metricName metric size fileStoreType fileStoreDir ch =
      (e, ch ++ [⟨metric, Float64.zero, [fileStoreType, fileStoreDir]⟩]) ∧
    (bytesConverter "123").2 = some (.errorf "Could not convert 123 to bytes") ∧
    (bytesConverter "3 XB").2 = some (.errorf "Could not convert 3 XB to bytes") :=
  ⟨exportSize_of_error e metricName metric size ch hne err h,
    exportFilestore_of_error e metricName metric size fileStoreType fileStoreDir ch hne err h,
    by decide!, by decide!⟩

set_option maxRecDepth 100000 in
/-- The amended C12 at the size `3 XB`. -/
theorem exportSize_parse_failure_witness :
    "3 XB" ≠ "" ∧
    (bytesConverter "3 XB").2 = some (.errorf "Could not convert 3 XB to bytes") ∧
    exportSize ⟨0⟩ "binariesSize" "binariesSize" "3 XB" [] =
      (⟨0⟩, [] ++ [⟨"binariesSize", Float64.zero, []⟩]) :=
  ⟨by decide, by decide!,
    (exportSize_parse_failure ⟨0⟩ "binariesSize" "binariesSize" "3 XB" "file-system"
      "/var/opt" [] (by decide) (.errorf "Could not convert 3 XB to bytes")
      (by decide!)).1⟩

/-- C13. Per-repository emission reads only the nested list: for any two decoded
responses that agree on `StorageSummary.RepositoriesSummaryList`, whatever their
top-level lists and other fields, `extractRepoSummary` sends the same metrics and
leaves the failure counter at the same value. -/
theorem extractRepoSummary_nested_only {Desc : Type} (lower : Char → Char)
    (storageMetrics : Nat → List (String × Desc)) (e : Exporter) (info₁ info₂ : storageInfo)
    (ch : List (Metric Desc))
    (h : info₁.StorageSummary.RepositoriesSummaryList =
      info₂.StorageSummary.RepositoriesSummaryList) :
    extractRepoSummary lower storageMetrics e info₁ ch =
      extractRepoSummary lower storageMetrics e info₂ ch := by
  unfold extractRepoSummary
  rw [h]

/-- C13 at two responses with the same nested rows, one of them with top-level copies
that differ. -/
theorem extractRepoSummary_nested_only_witness :
    (responseOf [rowRepoA, rowTotal]).RepositoriesSummaryList ≠
      (responseWithTop [rowRepoA, rowTotal]).RepositoriesSummaryList ∧
    extractRepoSummary id (fun _ => sampleTable) ⟨0⟩ (responseOf [rowRepoA, rowTotal]) [] =
      extractRepoSummary id (fun _ => sampleTable) ⟨0⟩
        (responseWithTop [rowRepoA, rowTotal]) [] :=
  ⟨by simp [responseOf, responseWithTop],
    extractRepoSummary_nested_only id (fun _ => sampleTable) ⟨0⟩ _ _ [] rfl⟩

/-! ### The failure counter -/

theorem inc_counter (e : Exporter) : e.inc.jsonParseFailures = e.jsonParseFailures + 1 := rfl

theorem fetchStorageInfo_counter {Err : Type} (fetchHTTP : String → List UInt8 × Option Err)
    (jsonUnmarshal : List UInt8 → storageInfo → storageInfo × Option Err) (e : Exporter) :
    (fetchStorageInfo fetchHTTP jsonUnmarshal e).1 = e ∨
      (fetchStorageInfo fetchHTTP jsonUnmarshal e).1 = e.inc := by
  unfold fetchStorageInfo
  rcases hf : fetchHTTP "storageinfo" with ⟨resp, _ | err⟩
  · rcases hj : jsonUnmarshal resp storageInfo.zero with ⟨info, _ | err⟩ <;> simp [hj]
  · simp

theorem exportCount_counter {Desc : Type} (e : Exporter) (metricName : String)
    (metric : Desc) (count : String) (ch : List (Metric Desc)) :
    (exportCount e metricName metric count ch).1 = e ∨
      (exportCount e metricName metric count ch).1 = e.inc := by
  unfold exportCount
  split_ifs <;> simp

theorem exportSize_counter {Desc : Type} (e : Exporter) (metricName : String)
    (metric : Desc) (size : String) (ch : List (Metric Desc)) :
    (exportSize e metricName metric size ch).1 = e ∨
      (exportSize e metricName metric size ch).1 = e.inc := by
  unfold exportSize
  split_ifs <;> simp

theorem exportFilestore_counter {Desc : Type} (e : Exporter) (metricName : String)
    (metric : Desc) (size fileStoreType fileStoreDir : String) (ch : List (Metric Desc)) :
    (exportFilestore e metricName metric size fileStoreType fileStoreDir ch).1 = e ∨
      (exportFilestore e metricName metric size fileStoreType fileStoreDir ch).1 = e.inc := by
  unfold exportFilestore
  split_ifs <;> simp

theorem extractRepoSummary_counter {Desc : Type} (lower : Char → Char)
    (storageMetrics : Nat → List (String × Desc)) (e : Exporter) (info : storageInfo)
    (ch : List (Metric Desc)) :
    (extractRepoSummary lower storageMetrics e info ch).1 = e ∨
      (extractRepoSummary lower storageMetrics e info ch).1 = e.inc := by
  rw [extractRepoSummary_eq]
  split_ifs <;> simp

theorem run_counter {Desc Err : Type} (lower : Char → Char)
    (storageMetrics : Nat → List (String × Desc)) (call : Call Desc Err)
    (st : Exporter × List (Metric Desc)) :
    (call.run lower storageMetrics st).1 = st.1 ∨
      (call.run lower storageMetrics st).1 = st.1.inc := by
  obtain ⟨e, ch⟩ := st
  cases call with
  | fetchStorageInfo f j => exact fetchStorageInfo_counter f j e
  | exportCount n m c => exact exportCount_counter e n m c ch
  | exportSize n m c => exact exportSize_counter e n m c ch
  | exportFilestore n m c t d => exact exportFilestore_counter e n m c t d ch
  | extractRepoSummary info => exact extractRepoSummary_counter lower storageMetrics e info ch
  | exportRepo rs => exact Or.inl rfl

theorem runCalls_counter {Desc Err : Type} (lower : Char → Char)
    (storageMetrics : Nat → List (String × Desc)) (calls : List (Call Desc Err))
    (st : Exporter × List (Metric Desc)) :
    st.1.jsonParseFailures ≤ (runCalls lower storageMetrics calls st).1.jsonParseFailures ∧
    (runCalls lower storageMetrics calls st).1.jsonParseFailures ≤
      st.1.jsonParseFailures + calls.length := by
  induction calls generalizing st with
  | nil => simp [runCalls]
  | cons call rest ih =>
    have h := ih (call.run lower storageMetrics st)
    have hc := run_counter lower storageMetrics call st
    have e : runCalls lower storageMetrics (call :: rest) st =
        runCalls lower storageMetrics rest (call.run lower storageMetrics st) := rfl
    rw [e, List.length_cons]
    rcases hc with hc | hc
    · rw [hc] at h
      omega
    · rw [hc, inc_counter] at h
      omega

/-- C14. The failure counter only grows, and by one at a time: each of
`fetchStorageInfo`, `exportCount`, `exportSize`, `exportFilestore`,
`extractRepoSummary` and `exportRepo` leaves the counter as it was or exactly one
higher, so after any sequence of calls the counter is at least its value before and at
most that value plus the number of calls. -/
theorem failure_counter_monotone {Desc Err : Type} (lower : Char → Char)
    (storageMetrics : Nat → List (String × Desc)) :
    (∀ (call : Call Desc Err) (st : Exporter × List (Metric Desc)),
      (call.run lower storageMetrics st).1.jsonParseFailures = st.1.jsonParseFailures ∨
      (call.run lower storageMetrics st).1.jsonParseFailures =
        st.1.jsonParseFailures + 1) ∧
    (∀ (calls : List (Call Desc Err)) (st : Exporter × List (Metric Desc)),
      st.1.jsonParseFailures ≤
        (runCalls lower storageMetrics calls st).1.jsonParseFailures ∧
      (runCalls lower storageMetrics calls st).1.jsonParseFailures ≤
        st.1.jsonParseFailures + calls.length) ∧
    (∀ (calls more : List (Call Desc Err)) (st : Exporter × List (Metric Desc)),
      (runCalls lower storageMetrics calls st).1.jsonParseFailures ≤
        (runCalls lower storageMetrics (calls ++ more) st).1.jsonParseFailures) := by
  refine ⟨?_, runCalls_counter lower storageMetrics, ?_⟩
  · intro call st
    rcases run_counter lower storageMetrics call st with h | h
    · exact Or.inl (by rw [h])
    · exact Or.inr (by rw [h, inc_counter])
  · intro calls more st
    have e : runCalls lower storageMetrics (calls ++ more) st =
        runCalls lower storageMetrics more (runCalls lower storageMetrics calls st) := by
      simp [runCalls, List.foldl_append]
    rw [e]
    exact (runCalls_counter lower storageMetrics more _).1

/-- C15. In `fetchStorageInfo`, over any fetch helper and any decoder: if the fetch
fails, the method returns that same error, the counter is unchanged and the decoder has
no part in the result; if the fetch succeeds and decoding the body fails, it returns
the decoder's error and the counter is one higher; if both succeed, it returns the
decoded response without an error and the counter is unchanged. -/
theorem fetchStorageInfo_cases {Err : Type} (fetchHTTP : String → List UInt8 × Option Err)
    (jsonUnmarshal : List UInt8 → storageInfo → storageInfo × Option Err) (e : Exporter) :
    (∀ (resp : List UInt8) (err : Err), fetchHTTP "storageinfo" = (resp, some err) →
      ∀ other : List UInt8 → storageInfo → storageInfo × Option Err,
        fetchStorageInfo fetchHTTP other e = (e, storageInfo.zero, some err)) ∧
    (∀ (resp : List UInt8) (info : storageInfo) (err : Err),
      fetchHTTP "storageinfo" = (resp, none) →
      jsonUnmarshal resp storageInfo.zero = (info, some err) →
      fetchStorageInfo fetchHTTP jsonUnmarshal e = (e.inc, info, some err) ∧
      e.inc.jsonParseFailures = e.jsonParseFailures + 1) ∧
    (∀ (resp : List UInt8) (info : storageInfo),
      fetchHTTP "storageinfo" = (resp, none) →
      jsonUnmarshal resp storageInfo.zero = (info, none) →
      fetchStorageInfo fetchHTTP jsonUnmarshal e = (e, info, none)) := by
  refine ⟨?_, ?_, ?_⟩
  · intro resp err h other
    simp [fetchStorageInfo, h]
  · intro resp info err h hj
    simp [fetchStorageInfo, h, hj, inc_counter]
  · intro resp info h hj
    simp [fetchStorageInfo, h, hj]

/-- C15 at a fetch that succeeds with an empty body and a decoder that rejects it. -/
theorem fetchStorageInfo_cases_witness :
    fetchStorageInfo (fun _ => (([] : List UInt8), (none : Option String)))
      (fun _ v => (v, some "unexpected end of JSON input")) ⟨0⟩ =
      (⟨1⟩, storageInfo.zero, some "unexpected end of JSON input") :=
  ((fetchStorageInfo_cases (fun _ => (([] : List UInt8), (none : Option String)))
    (fun _ v => (v, some "unexpected end of JSON input")) ⟨0⟩).2.1 [] storageInfo.zero
    "unexpected end of JSON input" rfl rfl).1

/-- C16. On a parse failure of a scalar field the emitters carry on with a zero value:
for every non-empty raw value that the parser rejects (`removeCommas` for
`exportCount`, `bytesConverter` for `exportSize` and `exportFilestore`), the emitter
sends exactly one metric and its value is zero. -/
theorem export_zero_on_failure {Desc : Type} (e : Exporter) (metricName : String)
    (metric : Desc) (fileStoreType fileStoreDir : String) (ch : List (Metric Desc)) :
    (∀ (count : String) (err : GoError), count ≠ "" → (removeCommas count).2 = some err →
      ∃ m : Metric Desc, (exportCount e metricName metric count ch).2 = ch ++ [m] ∧
        m.value = Float64.zero) ∧
    (∀ (size : String) (err : GoError), size ≠ "" → (bytesConverter size).2 = some err →
      (∃ m : Metric Desc, (exportSize e metricName metric size ch).2 = ch ++ [m] ∧
        m.value = Float64.zero) ∧
      ∃ m : Metric Desc,
        (exportFilestore e metricName metric size fileStoreType fileStoreDir ch).2 =
          ch ++ [m] ∧ m.value = Float64.zero) := by
  constructor
  · intro count err hne h
    exact ⟨_, by rw [exportCount_of_error e metricName metric count ch hne err h], rfl⟩
  · intro size err hne h
    exact ⟨⟨_, by rw [exportSize_of_error e metricName metric size ch hne err h], rfl⟩,
      ⟨_, by rw [exportFilestore_of_error e metricName metric size fileStoreType
        fileStoreDir ch hne err h], rfl⟩⟩

set_option maxRecDepth 100000 in
/-- C16 at the count `n/a`. -/
theorem export_zero_on_failure_witness :
    "n/a" ≠ "" ∧ (removeCommas "n/a").2 = some (.numSyntax "") ∧
    ∃ m : Metric String, (exportCount ⟨0⟩ "artifacts" "artifacts" "n/a" []).2 = [] ++ [m] ∧
      m.value = Float64.zero :=
  ⟨by decide, by decide!,
    (export_zero_on_failure ⟨0⟩ "artifacts" "artifacts" "file-system" "/var/opt" []).1
      "n/a" (.numSyntax "") (by decide) (by decide!)⟩

/-! ### Invariance and precedence -/

theorem removeCommas_congr (s t : String) (h : s.data.filter keep = t.data.filter keep) :
    removeCommas s = removeCommas t := by
  have e : replaceAllString s "" = replaceAllString t "" := by
    simp [replaceAllString, replaceAllRuns_nil, h]
  unfold removeCommas
  rw [e]

theorem firstUnit_of_contains (s : String) (h : ∃ t ∈ unitNames, t.data <:+: s.data) :
    ∃ k, k < 5 ∧ firstUnit s = some k := by
  cases hf : firstUnit s with
  | none =>
    exfalso
    obtain ⟨t, ht, hts⟩ := h
    simp only [firstUnit, List.findIdx?_eq_none_iff] at hf
    have := hf t ht
    simp [hts] at this
  | some k =>
    refine ⟨k, ?_, rfl⟩
    have := List.findIdx?_eq_some_iff_findIdx_eq.1 hf
    simpa [unitNames] using this.1

theorem bytesConverter_ok_iff (s : String) :
    (bytesConverter s).2 = none ↔
      ((removeCommas s).2 = none ∧ ∃ t ∈ unitNames, t.data <:+: s.data) := by
  constructor
  · intro h
    have h1 : (removeCommas s).2 = none := by
      cases hr : (removeCommas s).2 with
      | none => rfl
      | some err =>
        rw [bytesConverter_of_error s err hr] at h
        cases h
    refine ⟨h1, ?_⟩
    by_contra hno
    have hno' : ∀ t ∈ unitNames, ¬ t.data <:+: s.data := fun t ht hts => hno ⟨t, ht, hts⟩
    have hp : removeCommas s = ((removeCommas s).1, none) := by
      rw [← h1]
    rw [bytesConverter_errorf s _ hno' hp] at h
    cases h
  · rintro ⟨h1, hunit⟩
    have hp : removeCommas s = ((removeCommas s).1, none) := by
      rw [← h1]
    obtain ⟨u, hu1, hu, hlt⟩ := removeCommas_ok s _ hp
    obtain ⟨k, -, hk⟩ := firstUnit_of_contains s hunit
    rw [hu1] at hp
    rw [bytesConverter_unit s u k hp hu hlt hk]

theorem bytesConverter_ok (s : String) (v : Float64) (h : bytesConverter s = (v, none)) :
    ∃ u k : Nat, v = Float64.scale u k := by
  have h2 : (bytesConverter s).2 = none := by rw [h]
  obtain ⟨h1, hunit⟩ := (bytesConverter_ok_iff s).1 h2
  have hp : removeCommas s = ((removeCommas s).1, none) := by
    rw [← h1]
  obtain ⟨u, hu1, hu, hlt⟩ := removeCommas_ok s _ hp
  obtain ⟨k, -, hk⟩ := firstUnit_of_contains s hunit
  rw [hu1] at hp
  rw [bytesConverter_unit s u k hp hu hlt hk] at h
  exact ⟨u, k, (Prod.mk.inj h).1.symm⟩

theorem scale_nonneg (u k : Nat) : (Float64.scale u k).nonneg = true := by
  unfold Float64.scale
  split_ifs <;> simp [Float64.nonneg]

theorem nonTotal_idem (l : List RepositorySummary) : nonTotal (nonTotal l) = nonTotal l := by
  simp [nonTotal, List.filter_filter]

theorem Respelled.filter_eq (w t : List Char) (h : Respelled w t) :
    t.filter keep = w.filter keep := by
  induction h with
  | same => rfl
  | insert a b c hc _ ih => rw [← ih]; simp [List.filter_append, List.filter_cons, hc]
  | delete a b c hc _ ih => rw [← ih]; simp [List.filter_append, List.filter_cons, hc]

set_option maxRecDepth 100000 in
/-- C17. `removeCommas` does not see the characters that are neither digits nor points:
for every string `s` and every string `t` obtained from `s` by inserting or deleting
such characters at any positions, `removeCommas t` and `removeCommas s` are the same
result, value and error alike; more generally this holds for any two strings with the
same digits and points in the same order. So `1,234.5 GB` parses as `1234.5` does, and
`1e3` as `13`. -/
theorem removeCommas_invariant :
    (∀ s t : String, Respelled s.data t.data → removeCommas t = removeCommas s) ∧
    (∀ s t : String, s.data.filter keep = t.data.filter keep →
      removeCommas t = removeCommas s) ∧
    removeCommas "1,234.5 GB" = removeCommas "1234.5" ∧
    removeCommas "1e3" = removeCommas "13" := by
  refine ⟨fun s t h => removeCommas_congr t s (Respelled.filter_eq _ _ h),
    fun s t h => (removeCommas_congr s t h).symm, by decide!, by decide!⟩

set_option maxRecDepth 100000 in
/-- C17 at the string `-1,5e3 %`, which has a sign, a separator, an exponent letter, a
blank and a percent sign around the digits `1`, `5`, `3`: it parses as `153` does. -/
theorem removeCommas_invariant_witness :
    "153".data.filter keep = "-1,5e3 %".data.filter keep ∧
    removeCommas "-1,5e3 %" = removeCommas "153" :=
  ⟨by decide, removeCommas_invariant.2.1 "153" "-1,5e3 %" (by decide)⟩

/-- C18. A row whose key is exactly `TOTAL` is skipped before any of its fields is
parsed: for every response, `extractRepoSummary` sends the same metrics and leaves the
failure counter at the same value as on the response with all `TOTAL` rows removed from
the nested list; so when the other rows are well formed the counter is unchanged,
whatever the used space and percentage of the `TOTAL` rows. -/
theorem extractRepoSummary_skips_total {Desc : Type} (lower : Char → Char)
    (storageMetrics : Nat → List (String × Desc)) (e : Exporter) (info : storageInfo)
    (ch : List (Metric Desc)) :
    extractRepoSummary lower storageMetrics e info ch =
      extractRepoSummary lower storageMetrics e
        { info with StorageSummary := { info.StorageSummary with
            RepositoriesSummaryList :=
              nonTotal info.StorageSummary.RepositoriesSummaryList } } ch ∧
    ((∀ r ∈ info.StorageSummary.RepositoriesSummaryList, r.RepoKey ≠ "TOTAL" →
        wellFormed r = true) →
      ∃ sent : List (Metric Desc),
        extractRepoSummary lower storageMetrics e info ch = (e, ch ++ sent)) := by
  constructor
  · rw [extractRepoSummary_eq, extractRepoSummary_eq]
    simp only [nonTotal_idem]
  · intro h
    have hok : (nonTotal info.StorageSummary.RepositoriesSummaryList).all wellFormed = true := by
      rw [List.all_eq_true]
      intro r hr
      obtain ⟨hr1, hr2⟩ := List.mem_filter.1 hr
      exact h r hr1 (by simpa using hr2)
    rw [extractRepoSummary_eq, if_pos hok]
    obtain ⟨blocks, h1, -⟩ := exportRepoFrom_eq storageMetrics 0
      ((nonTotal info.StorageSummary.RepositoriesSummaryList).map (summaryOf lower)) ch
    exact ⟨blocks.flatten, by rw [h1]⟩

set_option maxRecDepth 100000 in
/-- C18 at the response with the rows of `repo-a` and `TOTAL`, the latter with an empty
percentage: the counter stays at zero. -/
theorem extractRepoSummary_skips_total_witness :
    wellFormed rowTotal = false ∧
    ∃ sent : List (Metric String),
      extractRepoSummary id (fun _ => sampleTable) ⟨0⟩ (responseOf [rowRepoA, rowTotal]) [] =
        (⟨0⟩, [] ++ sent) :=
  ⟨by decide!,
    (extractRepoSummary_skips_total id (fun _ => sampleTable) ⟨0⟩
      (responseOf [rowRepoA, rowTotal]) []).2 (by decide!)⟩

set_option maxRecDepth 100000 in
/-- C19. In `bytesConverter` the numeric parse comes before the search for a unit: for
every `s` on which `removeCommas` fails, `bytesConverter` fails with that same error,
whether or not `s` contains a unit name (so `GB` and `bytes` alone fail with the syntax
error), and `bytesConverter` succeeds if and only if `removeCommas` succeeds on `s` and
`s` contains at least one of `bytes`, `KB`, `MB`, `GB`, `TB`. -/
theorem bytesConverter_precedence :
    (∀ (s : String) (err : GoError), (removeCommas s).2 = some err →
      bytesConverter s = (Float64.zero, some err)) ∧
    (∀ s : String, (bytesConverter s).2 = none ↔
      ((removeCommas s).2 = none ∧ ∃ t ∈ unitNames, t.data <:+: s.data)) ∧
    bytesConverter "GB" = (Float64.zero, some (.numSyntax "")) ∧
    bytesConverter "bytes" = (Float64.zero, some (.numSyntax "")) :=
  ⟨bytesConverter_of_error, bytesConverter_ok_iff, by decide!, by decide!⟩

set_option maxRecDepth 100000 in
/-- C19 at the string `1.2.3 GB`: it contains a unit, and fails with the error of the
numeric parse. -/
theorem bytesConverter_precedence_witness :
    "GB".data <:+: "1.2.3 GB".data ∧
    (removeCommas "1.2.3 GB").2 = some (.numSyntax "1.2.3") ∧
    bytesConverter "1.2.3 GB" = (Float64.zero, some (.numSyntax "1.2.3")) :=
  ⟨by decide, by decide!,
    bytesConverter_precedence.1 "1.2.3 GB" (.numSyntax "1.2.3") (by decide!)⟩

set_option maxRecDepth 100000 in
/-- C20. The parsers never return a negative value: whenever `removeCommas` succeeds
its value is a finite float64 of at least zero, and whenever `bytesConverter` succeeds
its value is such a float64 or `+Inf`; a minus sign is deleted with the other
characters, so `-5` parses as 5. Hence the used space and the percentage of every
record the loop of `extractRepoSummary` builds are not negative. -/
theorem parsers_nonneg :
    (∀ (s : String) (v : Float64), removeCommas s = (v, none) →
      ∃ u : Nat, v = Float64.fin u) ∧
    (∀ (s : String) (v : Float64), removeCommas s = (v, none) → v.nonneg = true) ∧
    (∀ (s : String) (v : Float64), bytesConverter s = (v, none) → v.nonneg = true) ∧
    removeCommas "-5" = (Float64.fin (5 * Float64.one : Nat), none) ∧
    (∀ (lower : Char → Char) (e e' : Exporter) (l : List RepositorySummary)
      (built : List repoSummary),
      extractRepoSummaryLoop lower e l repoSummary.empty [] = (e', some built) →
      ∀ r ∈ built, r.UsedSpace.nonneg = true ∧ r.Percentage.nonneg = true) := by
  have hrc : ∀ (s : String) (v : Float64), removeCommas s = (v, none) →
      v.nonneg = true := by
    intro s v h
    obtain ⟨u, rfl, -, -⟩ := removeCommas_ok s v h
    simp [Float64.nonneg]
  have hbc : ∀ (s : String) (v : Float64), bytesConverter s = (v, none) →
      v.nonneg = true := by
    intro s v h
    obtain ⟨u, k, hv⟩ := bytesConverter_ok s v h
    rw [hv]
    exact scale_nonneg u k
  refine ⟨?_, hrc, hbc, by decide!, ?_⟩
  · intro s v h
    obtain ⟨u, hu, -, -⟩ := removeCommas_ok s v h
    exact ⟨u, hu⟩
  · intro lower e e' l built h r hr
    rw [extractRepoSummaryLoop_eq] at h
    split_ifs at h with hok
    · simp only [List.nil_append, Prod.mk.injEq, Option.some.injEq] at h
      rw [← h.2] at hr
      obtain ⟨repo, hrepo, rfl⟩ := List.mem_map.1 hr
      have hw := (List.all_eq_true.1 hok) repo hrepo
      simp only [wellFormed, Bool.and_eq_true, Option.isNone_iff_eq_none] at hw
      constructor
      · exact hbc repo.UsedSpace _ (by rw [← hw.1]; rfl)
      · exact hrc repo.Percentage _ (by rw [← hw.2]; rfl)
    · simp at h

set_option maxRecDepth 100000 in
/-- C20 at the string `-5 GB`. -/
theorem parsers_nonneg_witness :
    bytesConverter "-5 GB" = (Float64.fin (5 * 1024 ^ 3 * Float64.one : Nat), none) ∧
    (Float64.fin (5 * 1024 ^ 3 * Float64.one : Nat)).nonneg = true :=
  ⟨by decide!, parsers_nonneg.2.2.1 "-5 GB" _ (by decide!)⟩

end Collector
